import Mathlib

/-!
# Verification of the tetris-time tiling solver and sequencer

A shallow embedding of the core of the `tetris-time` repository:
the tetromino catalog (`src/tetrominoes.ts`), the digit mask library
(`src/digits.ts`), the mutable occupancy `Grid` (`src/grid.ts`), the seeded
backtracking tiling solver (`src/solver.ts`), the gravity sequencer
(`src/sequencer.ts`) and the canonical animation-duration estimator
(`src/core/animation.ts`, the sequential-with-think-duration variant).

Conventions of the embedding:
* JavaScript numbers holding grid coordinates are modelled as `Int`
  (anchor rows/columns can be negative); validated user inputs
  (digit / hours / minutes) are modelled as `ℚ` so that non-integer inputs
  such as `1.5` are representable; 32-bit integer operations of the PRNG are
  modelled on `Int` with explicit reduction modulo `2^32`.
* The mutable module-level `pieceIdCounter` is threaded explicitly as a `Nat`
  state argument; `resetPieceIdCounter` corresponds to replacing it by `0`.
* JavaScript `Map`/`Set` objects are modelled as association lists / lists
  preserving insertion order, which matches their iteration semantics.
* `throw` is modelled as `Option`/`Except` result types.
* Wall-clock statistics (`stats.duration`, from `performance.now()`) are not
  modelled; the remaining statistics (`attempts`, `backtracks`) are.
* Loops whose termination is not structural take an explicit fuel argument;
  the fuel passed by callers always dominates the number of iterations the
  JavaScript loop performs, so the exhaustion branches are unreachable and
  only exist to make the definitions total.
-/

/-! ## Basic helpers for JavaScript-style indexing -/

/-- The list `[0, 1, ..., n-1]` of `Int`s for a JavaScript loop
`for (let i = 0; i < n; i++)`; empty when `n ≤ 0`. -/
def intRange (n : Int) : List Int :=
  (List.range n.toNat).map Int.ofNat

/-- The list `[a, a+1, ..., b]` of `Int`s for a JavaScript loop
`for (let i = a; i <= b; i++)`; empty when `b < a`. -/
def intRangeIncl (a b : Int) : List Int :=
  (List.range (b + 1 - a).toNat).map (fun i => a + Int.ofNat i)

/-- JavaScript array indexing `xs[i]` with an `Int` index: `none` when out of
range (JavaScript `undefined`). -/
def listGetInt (xs : List α) (i : Int) : Option α :=
  if i < 0 then none else xs.get? i.toNat

/-- Maximum of a list of `Int`s, mirroring `Math.max(...xs)` on the nonempty
lists the code applies it to (the `[]` case is never reached: pieces and
rotation states always have 4 cells). -/
def jsMaxList : List Int → Int
  | [] => 0
  | x :: xs => xs.foldl max x

/-- Minimum of a list of `Int`s, mirroring `Math.min(...xs)` on nonempty
lists. -/
def jsMinList : List Int → Int
  | [] => 0
  | x :: xs => xs.foldl min x

/-! ## Tetromino catalog (`src/tetrominoes.ts`) -/

/-- The 7 standard Tetris piece types. -/
inductive TetrominoType where
  | I | O | T | S | Z | J | L
deriving DecidableEq, Repr

/-- A cell position on the grid (`row`, `col`). -/
structure Cell where
  row : Int
  col : Int
deriving DecidableEq, Repr

/-- The rotation states of each tetromino, as in the `TETROMINOES` record:
each rotation is a list of 4 cells relative to an anchor at the top-left of
the rotation's bounding box. -/
def rotationsOf : TetrominoType → List (List Cell)
  | .I => [[⟨0, 0⟩, ⟨0, 1⟩, ⟨0, 2⟩, ⟨0, 3⟩],
           [⟨0, 0⟩, ⟨1, 0⟩, ⟨2, 0⟩, ⟨3, 0⟩]]
  | .O => [[⟨0, 0⟩, ⟨0, 1⟩, ⟨1, 0⟩, ⟨1, 1⟩]]
  | .T => [[⟨0, 0⟩, ⟨0, 1⟩, ⟨0, 2⟩, ⟨1, 1⟩],
           [⟨0, 1⟩, ⟨1, 0⟩, ⟨1, 1⟩, ⟨2, 1⟩],
           [⟨0, 1⟩, ⟨1, 0⟩, ⟨1, 1⟩, ⟨1, 2⟩],
           [⟨0, 0⟩, ⟨1, 0⟩, ⟨1, 1⟩, ⟨2, 0⟩]]
  | .S => [[⟨0, 1⟩, ⟨0, 2⟩, ⟨1, 0⟩, ⟨1, 1⟩],
           [⟨0, 0⟩, ⟨1, 0⟩, ⟨1, 1⟩, ⟨2, 1⟩]]
  | .Z => [[⟨0, 0⟩, ⟨0, 1⟩, ⟨1, 1⟩, ⟨1, 2⟩],
           [⟨0, 1⟩, ⟨1, 0⟩, ⟨1, 1⟩, ⟨2, 0⟩]]
  | .J => [[⟨0, 0⟩, ⟨1, 0⟩, ⟨1, 1⟩, ⟨1, 2⟩],
           [⟨0, 0⟩, ⟨0, 1⟩, ⟨1, 0⟩, ⟨2, 0⟩],
           [⟨0, 0⟩, ⟨0, 1⟩, ⟨0, 2⟩, ⟨1, 2⟩],
           [⟨0, 1⟩, ⟨1, 1⟩, ⟨2, 0⟩, ⟨2, 1⟩]]
  | .L => [[⟨0, 2⟩, ⟨1, 0⟩, ⟨1, 1⟩, ⟨1, 2⟩],
           [⟨0, 0⟩, ⟨1, 0⟩, ⟨2, 0⟩, ⟨2, 1⟩],
           [⟨0, 0⟩, ⟨0, 1⟩, ⟨0, 2⟩, ⟨1, 0⟩],
           [⟨0, 0⟩, ⟨0, 1⟩, ⟨1, 1⟩, ⟨2, 1⟩]]

/-- `TETROMINO_TYPES`: list of all tetromino types, in source order. -/
def TETROMINO_TYPES : List TetrominoType :=
  [.I, .O, .T, .S, .Z, .J, .L]

/-- `getAbsoluteCells`: absolute cell positions of a tetromino given a
rotation index and anchor (anchor + each relative offset). -/
def getAbsoluteCells (t : TetrominoType) (rotationIndex : Nat) (anchor : Cell) :
    List Cell :=
  ((rotationsOf t).getD rotationIndex []).map
    (fun c => ⟨anchor.row + c.row, anchor.col + c.col⟩)

/-- A `(tetromino type, rotation index)` combination of the solver. -/
structure Placement where
  tetrominoType : TetrominoType
  rotationIndex : Nat
deriving DecidableEq, Repr

/-- `getAllPlacements`: every `(tetromino type, rotation index)` combination,
one entry per rotation state of each type, in source order. -/
def getAllPlacements : List Placement :=
  TETROMINO_TYPES.flatMap
    (fun t => (List.range (rotationsOf t).length).map
      (fun rotationIndex => ⟨t, rotationIndex⟩))

/-! ## Digit mask library (`src/digits.ts`) -/

/-- A digit pattern mask; `true` = lit (part of the digit). -/
abbrev DigitMask := List (List Bool)

/-- Rows of a digit grid (`DIGIT_ROWS`). -/
def DIGIT_ROWS : Int := 10

/-- Columns of a digit grid (`DIGIT_COLS`). -/
def DIGIT_COLS : Int := 6

/-- One mask row given by the lit columns of the 6-wide pattern. -/
def maskRow (a b c d e f : Bool) : List Bool := [a, b, c, d, e, f]

/-- Digit patterns 0–9 (`DIGIT_PATTERNS`), transcribed from the visual
strings in the source (`X` = `true`, `.` = `false`). -/
def DIGIT_PATTERNS : Nat → DigitMask
  | 0 => [maskRow true true true true true true,
          maskRow true true true true true true,
          maskRow true true false false true true,
          maskRow true true false false true true,
          maskRow true true false false true true,
          maskRow true true false false true true,
          maskRow true true true true true true,
          maskRow true true true true true true,
          maskRow true true true true true true,
          maskRow true true true true true true]
  | 1 => [maskRow false false false false true true,
          maskRow false false false false true true,
          maskRow false false false false true true,
          maskRow false false false false true true,
          maskRow false false false false true true,
          maskRow false false false false true true,
          maskRow false false false false true true,
          maskRow false false false false true true,
          maskRow false false false false true true,
          maskRow false false false false true true]
  | 2 => [maskRow true true true true true true,
          maskRow true true true true true true,
          maskRow false false false false true true,
          maskRow false false false false true true,
          maskRow true true true true true true,
          maskRow true true true true true true,
          maskRow true true false false false false,
          maskRow true true false false false false,
          maskRow true true true true true true,
          maskRow true true true true true true]
  | 3 => [maskRow true true true true true true,
          maskRow true true true true true true,
          maskRow false false false false true true,
          maskRow false false false false true true,
          maskRow true true true true true true,
          maskRow true true true true true true,
          maskRow false false false false true true,
          maskRow false false false false true true,
          maskRow true true true true true true,
          maskRow true true true true true true]
  | 4 => [maskRow true true false false true true,
          maskRow true true false false true true,
          maskRow true true false false true true,
          maskRow true true false false true true,
          maskRow true true true true true true,
          maskRow true true true true true true,
          maskRow false false false false true true,
          maskRow false false false false true true,
          maskRow false false false false true true,
          maskRow false false false false true true]
  | 5 => [maskRow true true true true true true,
          maskRow true true true true true true,
          maskRow true true false false false false,
          maskRow true true false false false false,
          maskRow true true true true true true,
          maskRow true true true true true true,
          maskRow false false false false true true,
          maskRow false false false false true true,
          maskRow true true true true true true,
          maskRow true true true true true true]
  | 6 => [maskRow true true true true true true,
          maskRow true true true true true true,
          maskRow true true false false false false,
          maskRow true true false false false false,
          maskRow true true true true true true,
          maskRow true true true true true true,
          maskRow true true false false true true,
          maskRow true true false false true true,
          maskRow true true true true true true,
          maskRow true true true true true true]
  | 7 => [maskRow true true true true true true,
          maskRow true true true true true true,
          maskRow false false false false true true,
          maskRow false false false false true true,
          maskRow false false false false true true,
          maskRow false false false false true true,
          maskRow false false false false true true,
          maskRow false false false false true true,
          maskRow false false false false true true,
          maskRow false false false false true true]
  | 8 => [maskRow true true true true true true,
          maskRow true true true true true true,
          maskRow true true false false true true,
          maskRow true true false false true true,
          maskRow true true true true true true,
          maskRow true true true true true true,
          maskRow true true false false true true,
          maskRow true true false false true true,
          maskRow true true true true true true,
          maskRow true true true true true true]
  | 9 => [maskRow true true true true true true,
          maskRow true true true true true true,
          maskRow true true false false true true,
          maskRow true true false false true true,
          maskRow true true true true true true,
          maskRow true true true true true true,
          maskRow false false false false true true,
          maskRow false false false false true true,
          maskRow true true true true true true,
          maskRow true true true true true true]
  | _ => []

/-! ## Core data types (`src/types.ts`) -/

/-- A tetromino that has been placed on the grid (`PlacedTetromino`). -/
structure PlacedTetromino where
  id : String
  type : TetrominoType
  rotationIndex : Nat
  anchor : Cell
  cells : List Cell
  isLit : Bool
deriving DecidableEq, Repr

/-- Statistics about the tiling process (`TileStats`); the wall-clock
`duration` field is not modelled. -/
structure TileStats where
  attempts : Nat
  backtracks : Nat
deriving DecidableEq, Repr

/-- Result of a tiling operation (`TileResult`). -/
structure TileResult where
  success : Bool
  pieces : List PlacedTetromino
  grid : List (List (Option PlacedTetromino))
  stats : TileStats
deriving DecidableEq, Repr

/-! ## Grid (`src/grid.ts`) -/

/-- `piece-${n}` identity strings produced by `generatePieceId`. -/
def pieceIdString (n : Nat) : String :=
  "piece-" ++ toString n

/-- The mutable tiling grid: occupancy table, mask, and the map of placed
pieces by identity (insertion-ordered, as a JavaScript `Map`). -/
structure Grid where
  rows : Int
  cols : Int
  cells : List (List (Option PlacedTetromino))
  mask : List (List Bool)
  placedPieces : List (String × PlacedTetromino)
deriving DecidableEq, Repr

/-- The all-`true` default mask used when the constructor receives none. -/
def allLitMask (rows cols : Int) : List (List Bool) :=
  List.replicate rows.toNat (List.replicate cols.toNat true)

/-- `new Grid(rows, cols, mask?)`. -/
def Grid.make (rows cols : Int) (mask : Option (List (List Bool))) : Grid :=
  { rows := rows
    cols := cols
    cells := List.replicate rows.toNat (List.replicate cols.toNat none)
    mask := mask.getD (allLitMask rows cols)
    placedPieces := [] }

/-- Occupancy lookup `this.cells[row][col]` (defined for in-bounds indices;
out-of-bounds reads, which the source never performs, give `none`). -/
def Grid.cellAt (g : Grid) (c : Cell) : Option PlacedTetromino :=
  ((listGetInt g.cells c.row).bind (fun r => listGetInt r c.col)).join

/-- Mask lookup `this.mask[row][col]` (out-of-bounds reads, which the source
never performs, give `false`). -/
def Grid.maskAt (g : Grid) (c : Cell) : Bool :=
  ((listGetInt g.mask c.row).bind (fun r => listGetInt r c.col)).getD false

/-- `canPlace`: all 4 absolute cells within bounds, none occupied, and all
with the same mask value as the first cell. -/
def Grid.canPlace (g : Grid) (t : TetrominoType) (rotationIndex : Nat)
    (anchor : Cell) : Bool :=
  let cells := getAbsoluteCells t rotationIndex anchor
  (cells.all (fun c =>
      0 ≤ c.row && c.row < g.rows && 0 ≤ c.col && c.col < g.cols)) &&
  (cells.all (fun c => (g.cellAt c).isNone)) &&
  (cells.all (fun c => g.maskAt c == g.maskAt (cells.headD ⟨0, 0⟩)))

/-- Write one occupancy cell (used by `place` to mark and by `remove` to
clear); writes outside the table are dropped, as the source never performs
them. -/
def Grid.setCell (g : Grid) (c : Cell) (v : Option PlacedTetromino) : Grid :=
  if 0 ≤ c.row ∧ c.row < (g.cells.length : Int) ∧ 0 ≤ c.col then
    let newRow := (g.cells.getD c.row.toNat []).set c.col.toNat v
    { g with cells := g.cells.set c.row.toNat newRow }
  else g

/-- JavaScript `Map.set`: update the existing entry in place, else append. -/
def setAssoc [BEq κ] (l : List (κ × α)) (k : κ) (v : α) : List (κ × α) :=
  if l.any (fun e => e.1 == k) then
    l.map (fun e => if e.1 == k then (k, v) else e)
  else l ++ [(k, v)]

/-- JavaScript `Map.get`: the value stored at a key (keys are unique in a
`Map`, so first-match lookup agrees). -/
def lookupAssoc [BEq κ] (l : List (κ × α)) (k : κ) : Option α :=
  (l.find? (fun e => e.1 == k)).map (fun e => e.2)

/-- Build a JavaScript `Map` from a list of entries (later entries
overwrite earlier ones in place, as `new Map(entries)` does). -/
def mapFromPairs [BEq κ] (entries : List (κ × α)) : List (κ × α) :=
  entries.foldl (fun acc e => setAssoc acc e.1 e.2) []

/-- Build a JavaScript `Set` from a list (deduplicating, keeping the first
occurrence of each element, as `new Set(xs)` does). -/
def dedupFirst [BEq α] (xs : List α) : List α :=
  xs.foldl (fun acc x => if acc.contains x then acc else acc ++ [x]) []

/-- The body of `place` after its `canPlace` guard succeeded: marks the 4
cells, registers the piece, returns the placed piece together with the
updated grid and identity counter. -/
def Grid.placeUnchecked (g : Grid) (counter : Nat) (t : TetrominoType)
    (rotationIndex : Nat) (anchor : Cell) : PlacedTetromino × Grid × Nat :=
  let cells := getAbsoluteCells t rotationIndex anchor
  let isLit := g.maskAt (cells.headD ⟨0, 0⟩)
  let piece : PlacedTetromino :=
    { id := pieceIdString (counter + 1)
      type := t
      rotationIndex := rotationIndex
      anchor := anchor
      cells := cells
      isLit := isLit }
  let g1 := cells.foldl (fun acc c => acc.setCell c (some piece)) g
  (piece, { g1 with placedPieces := setAssoc g1.placedPieces piece.id piece },
    counter + 1)

/-- `place`: `none` models the thrown error when `canPlace` is false. -/
def Grid.place (g : Grid) (counter : Nat) (t : TetrominoType)
    (rotationIndex : Nat) (anchor : Cell) :
    Option (PlacedTetromino × Grid × Nat) :=
  if g.canPlace t rotationIndex anchor then
    some (g.placeUnchecked counter t rotationIndex anchor)
  else none

/-- `remove`: `none` models the thrown error when the identity is unknown;
otherwise clears the piece's 4 cells and deregisters it. -/
def Grid.remove (g : Grid) (pieceId : String) : Option Grid :=
  match g.placedPieces.find? (fun e => e.1 == pieceId) with
  | none => none
  | some e =>
      let g1 := e.2.cells.foldl (fun acc c => acc.setCell c none) g
      some { g1 with
        placedPieces := g1.placedPieces.filter (fun q => ¬(q.1 == pieceId)) }

/-- `findFirstEmpty`: row-major scan for the first unoccupied cell. -/
def Grid.findFirstEmpty (g : Grid) : Option Cell :=
  (intRange g.rows).firstM (fun row =>
    (intRange g.cols).firstM (fun col =>
      if (g.cellAt ⟨row, col⟩).isNone then some (⟨row, col⟩ : Cell)
      else none))

/-- `isFull`: no empty cell remains. -/
def Grid.isFull (g : Grid) : Bool :=
  g.findFirstEmpty.isNone

/-- `getPlacedPieces`: the placed pieces in registration order. -/
def Grid.getPlacedPieces (g : Grid) : List PlacedTetromino :=
  g.placedPieces.map (fun e => e.2)

/-- `getCells`: the occupancy table (the source returns a shallow copy). -/
def Grid.getCells (g : Grid) : List (List (Option PlacedTetromino)) :=
  g.cells

/-! ## Seeded PRNG (`SeededRandom`, Mulberry32) and seed hashing -/

/-- JavaScript `ToUint32` on integer-valued numbers. -/
def toUint32 (n : Int) : Int := n.emod 4294967296

/-- JavaScript `ToInt32` on integer-valued numbers. -/
def toInt32 (n : Int) : Int :=
  let m := n.emod 4294967296
  if m < 2147483648 then m else m - 4294967296

/-- JavaScript unsigned right shift `a >>> k`. -/
def jsShru (a : Int) (k : Nat) : Int := toUint32 a / ((2 : Int) ^ k)

/-- JavaScript bitwise xor `a ^ b` (32-bit). -/
def jsXor (a b : Int) : Int :=
  toInt32 (Int.ofNat (Nat.xor (toUint32 a).toNat (toUint32 b).toNat))

/-- JavaScript bitwise or `a | b` (32-bit). -/
def jsOr (a b : Int) : Int :=
  toInt32 (Int.ofNat (Nat.lor (toUint32 a).toNat (toUint32 b).toNat))

/-- `Math.imul(a, b)`: 32-bit integer multiplication. -/
def jsImul (a b : Int) : Int := toInt32 (a * b)

/-- One step of the Mulberry32 generator (`SeededRandom.next`).  The source
returns `((t ^ (t >>> 14)) >>> 0) / 4294967296`, a dyadic rational in
`[0, 1)` that is only ever consumed as `Math.floor(next() * (i + 1))` with
`i + 1 ≤ 19`; that product is exact in double precision, so we return the
32-bit numerator `u` and let `shuffle` compute `⌊u * (i + 1) / 2^32⌋`
directly.  The state is stored before truncation (`this.state += ...` keeps
the untruncated sum), which the `Int` model reproduces. -/
def mulberryNext (state : Int) : Int × Int :=
  let t0 := state + 1831565813
  let t1 := jsImul (jsXor t0 (jsShru t0 15)) (jsOr t0 1)
  let t2 := jsXor t1 (t1 + jsImul (jsXor t1 (jsShru t1 7)) (jsOr t1 61))
  (toUint32 (jsXor t2 (jsShru t2 14)), t0)

/-- Swap two (valid) positions of a list,
`[result[i], result[j]] = [result[j], result[i]]`. -/
def listSwap (xs : List α) (i j : Nat) : List α :=
  match xs.get? i, xs.get? j with
  | some a, some b => (xs.set i b).set j a
  | _, _ => xs

/-- One iteration of the Fisher–Yates loop body at index `i`:
`j = Math.floor(next() * (i + 1))`, then swap positions `i` and `j`. -/
def shuffleStep (xs : List α) (i : Nat) (state : Int) : List α × Int :=
  let (u, state1) := mulberryNext state
  let j := ((u * (Int.ofNat i + 1)) / 4294967296).toNat
  (listSwap xs i j, state1)

/-- The Fisher–Yates loop `for (let i = length - 1; i > 0; i--)`. -/
def shuffleGo (xs : List α) (state : Int) : Nat → List α × Int
  | 0 => (xs, state)
  | i + 1 =>
      let (xs1, state1) := shuffleStep xs (i + 1) state
      shuffleGo xs1 state1 i

/-- `SeededRandom.shuffle`: shuffle a copy of the array in place. -/
def shuffle (xs : List α) (state : Int) : List α × Int :=
  shuffleGo xs state (xs.length - 1)

/-- A caller-supplied seed: a number or a string.  (An omitted seed falls
back to `Date.now()` in the source — deliberately non-deterministic and out
of scope here, where every claim concerns explicitly supplied seeds.) -/
inductive Seed where
  | num : Int → Seed
  | str : String → Seed
deriving DecidableEq, Repr

/-- `seedToNumber`: a number is used as-is; a string is hashed with the
`(hash << 5) - hash + charCode, hash |= 0` loop and returned as `>>> 0`. -/
def seedToNumber : Seed → Int
  | .num n => n
  | .str s =>
      toUint32 (s.data.foldl
        (fun hash ch => toInt32 (toInt32 (hash * 32) - hash + Int.ofNat ch.toNat))
        0)

/-! ## Tiling solver (`src/solver.ts`) -/

/-- Options for tiling operations (`TileOptions`). -/
structure TileOptions where
  seed : Seed
  maxAttempts : Option Nat
deriving DecidableEq, Repr

/-- `DEFAULT_MAX_ATTEMPTS`. -/
def DEFAULT_MAX_ATTEMPTS : Nat := 1000000

/-- `getAnchorsToCoverCell`: for each cell of the rotation, the anchor that
would place that cell at the target cell. -/
def getAnchorsToCoverCell (t : TetrominoType) (rotationIndex : Nat)
    (targetCell : Cell) : List Cell :=
  ((rotationsOf t).getD rotationIndex []).map
    (fun rel => ⟨targetCell.row - rel.row, targetCell.col - rel.col⟩)

/-- The mutable state threaded through `backtrack`: the grid, the module
counter behind `generatePieceId`, the PRNG state, and the solver's attempt
and backtrack counters. -/
structure BTState where
  grid : Grid
  counter : Nat
  rng : Int
  attempts : Nat
  backtracks : Nat

/-- `backtrack`: fill the first empty cell with some placement covering it
and recurse; the candidate enumeration is a fresh shuffle of the placement
list, with one candidate anchor per cell of each rotation.  The recursion
is fuelled: each recursive call is made after a successful `place`, which
strictly decreases the number of empty cells, so fuel
`rows * cols + 1` (supplied by `tileGrid`) always dominates the depth. -/
def backtrackGo (placements : List Placement) (maxAttempts : Nat) :
    Nat → BTState → Bool × BTState
  | 0, s => (false, s)
  | fuel + 1, s =>
    if s.grid.isFull then (true, s)
    else if maxAttempts ≤ s.attempts then (false, s)
    else match s.grid.findFirstEmpty with
    | none => (true, s)
    | some emptyCell =>
      let (shuffled, rng1) := shuffle placements s.rng
      let candidates := shuffled.flatMap (fun pl =>
        (getAnchorsToCoverCell pl.tetrominoType pl.rotationIndex emptyCell).map
          (fun anchor => (pl, anchor)))
      candidates.foldl
        (fun (acc : Bool × BTState) cand =>
          if acc.1 then acc
          else
            let s2 := { acc.2 with attempts := acc.2.attempts + 1 }
            if s2.grid.canPlace cand.1.tetrominoType cand.1.rotationIndex cand.2 then
              let placed := s2.grid.placeUnchecked s2.counter
                cand.1.tetrominoType cand.1.rotationIndex cand.2
              let rec1 := backtrackGo placements maxAttempts fuel
                { s2 with grid := placed.2.1, counter := placed.2.2 }
              if rec1.1 then (true, rec1.2)
              else
                let s3 := { rec1.2 with backtracks := rec1.2.backtracks + 1 }
                match s3.grid.remove placed.1.id with
                | some g2 => (false, { s3 with grid := g2 })
                | none => (false, s3)
            else (false, s2))
        (false, { s with rng := rng1 })

/-- `tileGrid`: seed the generator, reset the piece-identity counter, build
a fresh grid and run the backtracking search; returns the result and the
final identity counter (the threaded module state). -/
def tileGrid (rows cols : Int) (mask : DigitMask) (options : TileOptions)
    (pieceIdCounterIn : Nat) : TileResult × Nat :=
  let seed := seedToNumber options.seed
  let maxAttempts := options.maxAttempts.getD DEFAULT_MAX_ATTEMPTS
  -- resetPieceIdCounter(): the incoming counter state is discarded.
  let counter0 : Nat := 0
  let grid := Grid.make rows cols (some mask)
  let placements := getAllPlacements
  let run := backtrackGo placements maxAttempts (rows.toNat * cols.toNat + 1)
    ⟨grid, counter0, seed, 0, 0⟩
  ({ success := run.1
     pieces := run.2.grid.getPlacedPieces
     grid := run.2.grid.getCells
     stats := ⟨run.2.attempts, run.2.backtracks⟩ }, run.2.counter)

/-- Errors raised by the input-validating entry points; each carries the
offending value, as the thrown `Error` messages do. -/
inductive TileError where
  | invalidDigit (digit : ℚ)
  | invalidHours (hours : ℚ)
  | invalidMinutes (minutes : ℚ)
deriving DecidableEq, Repr

/-- `tileDigit`: validates that the digit is an integer in `[0, 9]` (the
digit argument is modelled as `ℚ` so that non-integer inputs such as `1.5`
are representable), then tiles the digit's mask. -/
def tileDigit (digit : ℚ) (options : TileOptions) (counterIn : Nat) :
    Except TileError (TileResult × Nat) :=
  if digit < 0 ∨ 9 < digit ∨ digit.isInt = false then
    .error (.invalidDigit digit)
  else
    .ok (tileGrid DIGIT_ROWS DIGIT_COLS (DIGIT_PATTERNS digit.floor.toNat)
      options counterIn)

/-- `tileTime`: validates `hours ∈ [0, 23]` and `minutes ∈ [0, 59]`
(integers), splits into 4 digits (`Math.floor(x / 10)` and `x % 10`,
written here as `x - 10 * ⌊x / 10⌋`, which coincides with the JavaScript
remainder for the validated non-negative inputs), and tiles each digit with
derived sub-seeds `baseSeed + 0..3`. -/
def tileTime (hours minutes : ℚ) (options : TileOptions) (counterIn : Nat) :
    Except TileError (List TileResult × Nat) :=
  if hours < 0 ∨ 23 < hours ∨ hours.isInt = false then
    .error (.invalidHours hours)
  else if minutes < 0 ∨ 59 < minutes ∨ minutes.isInt = false then
    .error (.invalidMinutes minutes)
  else
    let h1 : ℚ := ((hours / 10).floor : ℚ)
    let h2 : ℚ := hours - 10 * h1
    let m1 : ℚ := ((minutes / 10).floor : ℚ)
    let m2 : ℚ := minutes - 10 * m1
    let baseSeed := seedToNumber options.seed
    match tileDigit h1 { options with seed := .num baseSeed } counterIn with
    | .error e => .error e
    | .ok (r1, c1) =>
      match tileDigit h2 { options with seed := .num (baseSeed + 1) } c1 with
      | .error e => .error e
      | .ok (r2, c2) =>
        match tileDigit m1 { options with seed := .num (baseSeed + 2) } c2 with
        | .error e => .error e
        | .ok (r3, c3) =>
          match tileDigit m2 { options with seed := .num (baseSeed + 3) } c3 with
          | .error e => .error e
          | .ok (r4, c4) => .ok ([r1, r2, r3, r4], c4)

/-! ## Sequencer (`src/sequencer.ts`) -/

/-- Movement direction for horizontal movement (`MoveDirection`). -/
inductive MoveDirection where
  | left | right | none
deriving DecidableEq, Repr

/-- The kind of a placement step. -/
inductive StepAction where
  | spawn | rotate | move | drop | lock
deriving DecidableEq, Repr

/-- A single step in the piece placement animation (`PlacementStep`);
absent optional fields are `none`. -/
structure PlacementStep where
  action : StepAction
  row : Option Int
  col : Option Int
  direction : Option MoveDirection
deriving DecidableEq, Repr

/-- A sequenced piece with drop information (`SequencedPiece`). -/
structure SequencedPiece where
  piece : PlacedTetromino
  order : Nat
  dropColumn : Int
  steps : List PlacementStep
deriving DecidableEq, Repr

/-- Result of a sequencing operation (`SequenceResult`). -/
structure SequenceResult where
  success : Bool
  sequence : List SequencedPiece
  rows : Int
  cols : Int
deriving DecidableEq, Repr

/-- Indexing `grid[row]?.[col]` into a tile result's occupancy grid;
`none` covers both out-of-range accesses and `null` cells. -/
def gridAt (grid : List (List (Option PlacedTetromino))) (row col : Int) :
    Option PlacedTetromino :=
  ((listGetInt grid row).bind (fun r => listGetInt r col)).join

/-- `canDropPiece`: every cell above any of the piece's cells in its column
is empty or belongs to a piece not yet placed. -/
def canDropPiece (piece : PlacedTetromino) (placedIds : List String)
    (grid : List (List (Option PlacedTetromino))) : Bool :=
  piece.cells.all (fun cell =>
    (intRange cell.row).all (fun row =>
      match gridAt grid row cell.col with
      | some q => !(placedIds.contains q.id)
      | none => true))

/-- The `columnLowestRows` map of `isPieceSupported`: for each occupied
column (in first-occurrence order) the lowest (largest) row. -/
def columnLowest (cells : List Cell) : List (Int × Int) :=
  cells.foldl
    (fun acc cell =>
      let current := (lookupAssoc acc cell.col).getD (-1)
      if current < cell.row then setAssoc acc cell.col cell.row else acc)
    []

/-- `isPieceSupported`: the lowest cell of every occupied column is at the
bottom row or directly above an already-placed cell. -/
def isPieceSupported (piece : PlacedTetromino) (placedCells : List Cell)
    (maxRow : Int) : Bool :=
  (columnLowest piece.cells).all (fun e =>
    e.2 == maxRow || placedCells.contains (⟨e.2 + 1, e.1⟩ : Cell))

/-- `generateSteps`: spawn (centered above the grid), one rotate step per
rotation index, one move step per column of horizontal distance, one drop
step per row descended, and a final lock step. -/
def generateSteps (piece : PlacedTetromino) (gridCols gridRows : Int) :
    List PlacementStep :=
  let rotation := (rotationsOf piece.type).getD piece.rotationIndex []
  let pieceMinCol := jsMinList (rotation.map (fun c => c.col))
  let pieceMaxCol := jsMaxList (rotation.map (fun c => c.col))
  let pieceMinRow := jsMinList (rotation.map (fun c => c.row))
  let pieceWidth := pieceMaxCol - pieceMinCol + 1
  let pieceHeight := jsMaxList (rotation.map (fun c => c.row)) - pieceMinRow + 1
  let spawnCol := Int.fdiv (gridCols - pieceWidth) 2
  let spawnRow := -pieceHeight
  let targetCol := piece.anchor.col
  let targetRow := piece.anchor.row
  let spawnStep : PlacementStep :=
    { action := .spawn, row := some spawnRow, col := some spawnCol,
      direction := none }
  let rotateSteps : List PlacementStep :=
    List.replicate piece.rotationIndex
      { action := .rotate, row := none, col := none, direction := none }
  let horizontalDiff := targetCol - spawnCol
  let moveSteps : List PlacementStep :=
    if horizontalDiff = 0 then []
    else
      (List.range horizontalDiff.natAbs).map (fun m =>
        let currentCol :=
          spawnCol + (if 0 < horizontalDiff then (m : Int) + 1 else -((m : Int) + 1))
        { action := .move, row := none, col := some currentCol,
          direction := some (if 0 < horizontalDiff then .right else .left) })
  let dropSteps : List PlacementStep :=
    (intRangeIncl (spawnRow + 1) targetRow).map (fun row =>
      { action := .drop, row := some row, col := some targetCol,
        direction := none })
  let lockStep : PlacementStep :=
    { action := .lock, row := some targetRow, col := some targetCol,
      direction := none }
  spawnStep :: (rotateSteps ++ moveSteps ++ dropSteps ++ [lockStep])

/-- Insert an element after every existing element that the (total,
transitive) comparator places before or tied with it. -/
def insertLe (le : α → α → Bool) (x : α) : List α → List α
  | [] => [x]
  | y :: ys => if le y x then y :: insertLe le x ys else x :: y :: ys

/-- Stable sort by a comparator-derived relation `le a b ⟺ cmp(a,b) ≤ 0`.
`Array.prototype.sort` is stable, and a stable sort's output is uniquely
determined by the comparator and the input order, so any stable sorting
algorithm is a faithful model. -/
def stableSortBy (le : α → α → Bool) (l : List α) : List α :=
  l.foldl (fun acc x => insertLe le x acc) []

/-- Largest row of a piece's cells (`Math.max(...cells.map(c => c.row))`). -/
def pieceMaxRow (p : PlacedTetromino) : Int :=
  jsMaxList (p.cells.map (fun c => c.row))

/-- Smallest column of a piece's cells. -/
def pieceMinCol (p : PlacedTetromino) : Int :=
  jsMinList (p.cells.map (fun c => c.col))

/-- The supported-piece ordering of the greedy loop: larger max row first
(closer to the floor), ties by smaller min column. -/
def supportedLe (a b : PlacedTetromino) : Bool :=
  (pieceMaxRow b < pieceMaxRow a) ||
    (pieceMaxRow a == pieceMaxRow b && pieceMinCol a ≤ pieceMinCol b)

/-- The fallback queue ordering: larger max row first. -/
def queueLe (pieceMap : List (String × PlacedTetromino)) (a b : String) :
    Bool :=
  let ra := ((lookupAssoc pieceMap a).map pieceMaxRow).getD 0
  let rb := ((lookupAssoc pieceMap b).map pieceMaxRow).getD 0
  rb ≤ ra

/-- The dependency map of `tryReorderForValidSequence`: for each piece, the
set (insertion-ordered, deduplicated) of ids of pieces having a cell
strictly above one of its cells in the same column. -/
def buildDeps (pieces : List PlacedTetromino)
    (grid : List (List (Option PlacedTetromino))) :
    List (String × List String) :=
  let init := mapFromPairs (pieces.map (fun p => (p.id, ([] : List String))))
  pieces.foldl
    (fun dm piece =>
      piece.cells.foldl
        (fun dm2 cell =>
          (intRange cell.row).foldl
            (fun dm3 row =>
              match gridAt grid row cell.col with
              | some q =>
                  if ¬(q.id == piece.id) then
                    let old := (lookupAssoc dm3 piece.id).getD []
                    if old.contains q.id then dm3
                    else setAssoc dm3 piece.id (old ++ [q.id])
                  else dm3
              | none => dm3)
            dm2)
        dm)
    init

/-- One Kahn iteration state: the (mutated) dependency sets, in-degrees,
queue and emitted order. -/
structure KahnState where
  deps : List (String × List String)
  inDeg : List (String × Int)
  queue : List String
  sortedIds : List String

/-- The Kahn loop of the fallback: sort the queue (bottom rows first),
shift the front, and decrement the in-degree of every piece that depended
on it, enqueueing those that reach zero.  Each piece is enqueued at most
once after its in-degree reaches zero and at most once initially, so the
fuel supplied by the caller dominates the number of iterations. -/
def kahnLoop (pieceMap : List (String × PlacedTetromino)) :
    Nat → KahnState → List String
  | 0, st => st.sortedIds
  | fuel + 1, st =>
    match stableSortBy (queueLe pieceMap) st.queue with
    | [] => st.sortedIds
    | current :: rest =>
        let upd := st.deps.foldl
          (fun (acc : List (String × List String) × List (String × Int) × List String) e =>
            if e.2.contains current then
              let newDeg := ((lookupAssoc acc.2.1 e.1).getD 0) - 1
              (setAssoc acc.1 e.1 (e.2.erase current),
               setAssoc acc.2.1 e.1 newDeg,
               if newDeg == 0 then acc.2.2 ++ [e.1] else acc.2.2)
            else acc)
          (st.deps, st.inDeg, ([] : List String))
        kahnLoop pieceMap fuel
          { deps := upd.1, inDeg := upd.2.1, queue := rest ++ upd.2.2,
            sortedIds := st.sortedIds ++ [current] }

/-- `tryReorderForValidSequence`: build the dependency graph, run Kahn's
algorithm, fail (`none`) on a cycle, otherwise emit the sorted pieces with
their steps. -/
def tryReorderForValidSequence (pieces : List PlacedTetromino)
    (grid : List (List (Option PlacedTetromino))) (gridRows gridCols : Int) :
    Option SequenceResult :=
  let deps0 := buildDeps pieces grid
  let pieceMap := mapFromPairs (pieces.map (fun p => (p.id, p)))
  let inDeg0 := mapFromPairs (pieces.map (fun p =>
    (p.id, (((lookupAssoc deps0 p.id).getD []).length : Int))))
  let queue0 := (inDeg0.filter (fun e => e.2 == 0)).map (fun e => e.1)
  let sortedIds := kahnLoop pieceMap (2 * pieces.length + 1)
    ⟨deps0, inDeg0, queue0, []⟩
  if sortedIds.length = pieces.length then
    some
      { success := true
        sequence := sortedIds.enum.filterMap (fun ie =>
          (lookupAssoc pieceMap ie.2).map (fun piece =>
            { piece := piece, order := ie.1, dropColumn := piece.anchor.col,
              steps := generateSteps piece gridCols gridRows }))
        rows := gridRows
        cols := gridCols }
  else none

/-- The greedy loop state: the set of placed cells, the set of remaining
piece ids, and the sequence built so far. -/
structure GreedyState where
  placedCells : List Cell
  remaining : List String
  sequence : List SequencedPiece

/-- The greedy loop of `sequencePieces`: among the remaining pieces that
are supported and whose drop path is clear, commit the one preferred by
`supportedLe`; fall back to the topological reordering when none
qualifies.  Each iteration removes the committed id from `remaining`, so
fuel `remaining.length + 1` dominates the iteration count. -/
def sequenceGreedy (result : TileResult) (gridRows gridCols maxRow : Int)
    (pieceMap : List (String × PlacedTetromino)) :
    Nat → GreedyState → SequenceResult
  | 0, _ =>
      { success := false, sequence := [], rows := gridRows, cols := gridCols }
  | fuel + 1, st =>
      if st.remaining.isEmpty then
        { success := true, sequence := st.sequence, rows := gridRows,
          cols := gridCols }
      else
        let supported := st.remaining.filterMap (fun pieceId =>
          match lookupAssoc pieceMap pieceId with
          | some piece =>
              if isPieceSupported piece st.placedCells maxRow
                  && canDropPiece piece
                    (st.sequence.map (fun s => s.piece.id)) result.grid
              then some piece else none
          | none => none)
        match stableSortBy supportedLe supported with
        | [] =>
            match tryReorderForValidSequence result.pieces result.grid
                gridRows gridCols with
            | some fb => fb
            | none =>
                { success := false, sequence := [], rows := gridRows,
                  cols := gridCols }
        | piece :: _ =>
            let entry : SequencedPiece :=
              { piece := piece
                order := st.sequence.length
                dropColumn := piece.anchor.col
                steps := generateSteps piece gridCols gridRows }
            sequenceGreedy result gridRows gridCols maxRow pieceMap fuel
              { placedCells := st.placedCells ++ piece.cells
                remaining := st.remaining.erase piece.id
                sequence := st.sequence ++ [entry] }

/-- `sequencePieces`: gravity-based ordering of a tile result's pieces. -/
def sequencePieces (result : TileResult) : SequenceResult :=
  if ¬ result.success || result.pieces.length == 0 then
    { success := false, sequence := [], rows := (result.grid.length : Int),
      cols := ((result.grid.headD []).length : Int) }
  else
    let gridRows : Int := (result.grid.length : Int)
    let gridCols : Int := ((result.grid.headD []).length : Int)
    let maxRow := gridRows - 1
    let remaining0 := dedupFirst (result.pieces.map (fun p => p.id))
    let pieceMap := mapFromPairs (result.pieces.map (fun p => (p.id, p)))
    sequenceGreedy result gridRows gridCols maxRow pieceMap
      (remaining0.length + 1) ⟨[], remaining0, []⟩

/-! ## Animation duration estimator (`src/core/animation.ts`, the canonical
sequential-with-think-duration variant) -/

/-- `AnimationEstimateConfig`; the optional fields default to `0`. -/
structure AnimationEstimateConfig where
  fieldTopPaddingRows : ℚ
  nudgeDurationMs : ℚ
  rotateDurationMs : ℚ
  hardDropDurationMs : ℚ
  pieceDelayMs : ℚ
  thinkDurationMs : Option ℚ
  minHardDropDelayMs : Option ℚ
deriving DecidableEq, Repr

/-- The per-piece contribution of the estimator loop body, excluding the
trailing `pieceDelayMs` added after it: think pause plus action time, plus
a minimum-visibility hard drop for the rows gravity did not cover. -/
def estimatePieceMs (config : AnimationEstimateConfig)
    (seqPiece : SequencedPiece) : ℚ :=
  let piece := seqPiece.piece
  let rotationCount := (rotationsOf piece.type).length
  let targetRotation := piece.rotationIndex % rotationCount
  let rotateSteps : Nat := if rotationCount ≤ 1 then 0 else targetRotation
  let moveSteps :=
    (seqPiece.steps.filter (fun s => s.action == .move)).length
  let totalActions : Nat := rotateSteps + moveSteps
  let thinkDuration := config.thinkDurationMs.getD 0
  let minHardDropDelay := config.minHardDropDelayMs.getD 0
  let actionTime := thinkDuration + (totalActions : ℚ) * config.nudgeDurationMs
  let spawnRow : ℚ := -config.fieldTopPaddingRows
  let finalRow : ℚ := (piece.anchor.row : ℚ)
  let totalDropDistance := finalRow - spawnRow
  let rowsDroppedByGravity : ℚ :=
    if 0 < config.hardDropDurationMs then
      min ((⌊actionTime / config.hardDropDurationMs⌋ : ℚ)) totalDropDistance
    else 0
  let rowsToHardDrop := max 0 (totalDropDistance - rowsDroppedByGravity)
  actionTime + rowsToHardDrop * minHardDropDelay

/-- `estimateAnimationDurationMs`: `0` for an unsuccessful sequence,
otherwise the sum over all pieces of the per-piece time plus one
inter-piece delay per piece (including one after the very last piece). -/
def estimateAnimationDurationMs (seqResult : SequenceResult)
    (config : AnimationEstimateConfig) : ℚ :=
  if ¬ seqResult.success then 0
  else
    seqResult.sequence.foldl
      (fun total sp => total + estimatePieceMs config sp + config.pieceDelayMs)
      0

/-! ## Concrete example inputs used by the witnesses -/

/-- An O piece filling the 2×2 grid of `exampleTile`. -/
def examplePiece : PlacedTetromino :=
  { id := "piece-1"
    type := .O
    rotationIndex := 0
    anchor := ⟨0, 0⟩
    cells := [⟨0, 0⟩, ⟨0, 1⟩, ⟨1, 0⟩, ⟨1, 1⟩]
    isLit := true }

/-- A successful 2×2 tiling consisting of the single O piece. -/
def exampleTile : TileResult :=
  { success := true
    pieces := [examplePiece]
    grid := [[some examplePiece, some examplePiece],
             [some examplePiece, some examplePiece]]
    stats := ⟨1, 0⟩ }

/-- A concrete estimator configuration for the witnesses. -/
def exampleConfig : AnimationEstimateConfig :=
  { fieldTopPaddingRows := 10
    nudgeDurationMs := 20
    rotateDurationMs := 30
    hardDropDurationMs := 10
    pieceDelayMs := 5
    thinkDurationMs := some 300
    minHardDropDelayMs := some 16 }

/-- Whether an `Except` result models a thrown error. -/
def isError : Except ε α → Bool
  | .error _ => true
  | .ok _ => false

/-! ## Theorems -/

/-- C4, counterexample: the placement enumeration has 19 entries, not 28 —
the per-type rotation counts I×2, O×1, T×4, S×2, Z×2, J×4, L×4 sum to 19. -/
theorem getAllPlacements_total_is_19_not_28 :
    getAllPlacements.length = 19 ∧ ¬ getAllPlacements.length = 28 := by
  decide

/-- C4 (amended): the solver's placement enumeration contains every
(tetromino type, rotation index) pair with a valid rotation index exactly
once, with I contributing 2 rotation states, O 1, T 4, S 2, Z 2, J 4 and
L 4, for 19 combinations in total. -/
theorem getAllPlacements_each_pair_once :
    (∀ t : TetrominoType, ∀ i : Nat,
        (⟨t, i⟩ : Placement) ∈ getAllPlacements ↔ i < (rotationsOf t).length) ∧
    getAllPlacements.Nodup ∧
    (getAllPlacements.countP (fun p => p.tetrominoType == .I) = 2) ∧
    (getAllPlacements.countP (fun p => p.tetrominoType == .O) = 1) ∧
    (getAllPlacements.countP (fun p => p.tetrominoType == .T) = 4) ∧
    (getAllPlacements.countP (fun p => p.tetrominoType == .S) = 2) ∧
    (getAllPlacements.countP (fun p => p.tetrominoType == .Z) = 2) ∧
    (getAllPlacements.countP (fun p => p.tetrominoType == .J) = 4) ∧
    (getAllPlacements.countP (fun p => p.tetrominoType == .L) = 4) ∧
    getAllPlacements.length = 19 := by
  refine ⟨?_, by decide, by decide, by decide, by decide, by decide,
    by decide, by decide, by decide, by decide⟩
  intro t i
  cases t <;>
    simp [getAllPlacements, TETROMINO_TYPES, rotationsOf, List.mem_flatMap,
      List.mem_map, List.mem_range] <;>
    omega

/-- C3: determinism.  With the piece-identity counter threaded explicitly,
`tileGrid` (and hence `tileDigit`) is independent of the incoming counter
state — it resets it — and is a pure function of its arguments, so two
calls with identical rows, cols, mask and options (covering both number
and string seeds) give identical results: the same success flag and the
same piece list with identical types, rotation indices, anchors, cells and
identity strings.  (The unmodelled wall-clock `stats.duration` is the only
output outside this equality.) -/
theorem tileGrid_deterministic (rows cols : Int) (mask : DigitMask)
    (options : TileOptions) (digit : ℚ) (c1 c2 d1 d2 : Nat) :
    tileGrid rows cols mask options c1 = tileGrid rows cols mask options c2 ∧
    tileDigit digit options d1 = tileDigit digit options d2 :=
  ⟨rfl, rfl⟩

/-- Every rotation state in the catalog has exactly 4 cells. -/
theorem rotation_length_all :
    ∀ t : TetrominoType, ((rotationsOf t).all (fun r => r.length == 4)) = true := by
  intro t
  cases t <;> decide

/-- A member rotation state has exactly 4 cells. -/
theorem rotation_mem_length (t : TetrominoType) (r : List Cell)
    (hr : r ∈ rotationsOf t) : r.length = 4 := by
  have h := rotation_length_all t
  rw [List.all_eq_true] at h
  exact beq_iff_eq.mp (h r hr)

/-- An in-range `getD` access returns a member of the list. -/
theorem getD_mem_of_lt (l : List α) (i : Nat) (d : α) (h : i < l.length) :
    l.getD i d ∈ l := by
  induction l generalizing i with
  | nil => simp at h
  | cons x xs ih =>
    cases i with
    | zero => simp [List.getD_cons_zero]
    | succ n =>
        simp only [List.getD_cons_succ]
        exact List.mem_cons_of_mem x (ih n (by simpa using h))

/-- For a valid rotation index, `getAbsoluteCells` returns exactly 4 cells. -/
theorem getAbsoluteCells_length (t : TetrominoType) (i : Nat) (anchor : Cell)
    (hi : i < (rotationsOf t).length) :
    (getAbsoluteCells t i anchor).length = 4 := by
  unfold getAbsoluteCells
  rw [List.length_map]
  exact rotation_mem_length t _ (getD_mem_of_lt _ i [] hi)

/-- C5: for every grid state, tetromino, valid rotation index and anchor,
`canPlace` is true exactly when all 4 absolute cells lie within
`[0, rows) × [0, cols)`, none is occupied by a placed piece, and all 4
carry the same mask value (stated pairwise, following the spec). -/
theorem Grid_canPlace_iff (g : Grid) (t : TetrominoType) (i : Nat)
    (anchor : Cell) (hi : i < (rotationsOf t).length) :
    (g.canPlace t i anchor = true) ↔
      ((∀ c ∈ getAbsoluteCells t i anchor,
          0 ≤ c.row ∧ c.row < g.rows ∧ 0 ≤ c.col ∧ c.col < g.cols) ∧
       (∀ c ∈ getAbsoluteCells t i anchor, g.cellAt c = none) ∧
       (∀ c ∈ getAbsoluteCells t i anchor, ∀ d ∈ getAbsoluteCells t i anchor,
          g.maskAt c = g.maskAt d)) := by
  have h4 := getAbsoluteCells_length t i anchor hi
  obtain ⟨x, xs, hcons⟩ : ∃ x xs, getAbsoluteCells t i anchor = x :: xs := by
    match hcells : getAbsoluteCells t i anchor with
    | [] => rw [hcells] at h4; simp at h4
    | y :: ys => exact ⟨y, ys, rfl⟩
  unfold Grid.canPlace
  simp only [hcons, Bool.and_eq_true, List.all_eq_true, decide_eq_true_eq,
    Option.isNone_iff_eq_none, beq_iff_eq, List.headD_cons, and_assoc]
  constructor
  · rintro ⟨hb, ho, hm⟩
    refine ⟨hb, ho, ?_⟩
    intro c hc d hd
    rw [hm c hc, hm d hd]
  · rintro ⟨hb, ho, hm⟩
    refine ⟨hb, ho, ?_⟩
    intro c hc
    exact hm c hc x (List.mem_cons_self x xs)

/-- C5 witness: on a fresh all-lit 2×2 grid, placing an O piece at the
origin is accepted, via the characterization at a concrete input. -/
theorem Grid_canPlace_iff_witness :
    (Grid.make 2 2 none).canPlace .O 0 ⟨0, 0⟩ = true :=
  (Grid_canPlace_iff (Grid.make 2 2 none) .O 0 ⟨0, 0⟩ (by decide)).mpr
    ⟨by decide, by decide, by decide⟩

/-- The estimator loop as a closed sum: the fold adds the per-piece time
and one inter-piece delay for every piece, including the last. -/
theorem estimateFold (f : α → ℚ) (d : ℚ) (l : List α) :
    ∀ a : ℚ,
      l.foldl (fun total sp => total + f sp + d) a
        = a + (l.map f).sum + d * l.length := by
  induction l with
  | nil => intro a; simp
  | cons x xs ih =>
      intro a
      simp only [List.foldl_cons, List.map_cons, List.sum_cons,
        List.length_cons, ih]
      push_cast
      ring

/-- Changing only `pieceDelayMs` does not change the per-piece time. -/
theorem estimatePieceMs_pieceDelay (config : AnimationEstimateConfig)
    (x : ℚ) :
    estimatePieceMs { config with pieceDelayMs := x } = estimatePieceMs config := by
  funext sp
  rfl

/-- C9: for a successful sequence, increasing `pieceDelayMs` by `δ` (all
other fields fixed) increases the estimated total duration by exactly
`δ × (number of sequence entries)` — the delay is charged once per piece,
including one trailing delay after the last piece. -/
theorem estimate_pieceDelay_linear (seqResult : SequenceResult)
    (config : AnimationEstimateConfig) (δ : ℚ)
    (h : seqResult.success = true) :
    estimateAnimationDurationMs seqResult
        { config with pieceDelayMs := config.pieceDelayMs + δ }
      = estimateAnimationDurationMs seqResult config
        + δ * seqResult.sequence.length := by
  unfold estimateAnimationDurationMs
  simp only [if_neg (not_not_intro h), estimateFold, estimatePieceMs_pieceDelay]
  show (0 : ℚ) + _ + (config.pieceDelayMs + δ) * _ = _
  ring

/-- C9 witness: the linearity instance at the concrete one-piece sequence
of `exampleTile` with `δ = 7`. -/
theorem estimate_pieceDelay_linear_witness :
    estimateAnimationDurationMs (sequencePieces exampleTile)
        { exampleConfig with pieceDelayMs := exampleConfig.pieceDelayMs + 7 }
      = estimateAnimationDurationMs (sequencePieces exampleTile) exampleConfig
        + 7 * (sequencePieces exampleTile).sequence.length :=
  estimate_pieceDelay_linear (sequencePieces exampleTile) exampleConfig 7
    (by decide)

/-- A rational cast from an integer has `isInt` true. -/
theorem intCast_isInt (n : ℤ) : ((n : ℚ)).isInt = true := by
  simp [Rat.isInt]

/-- An integer-valued rational is the cast of its numerator. -/
theorem isInt_eq_numCast (d : ℚ) (h : d.isInt = true) : d = (d.num : ℚ) := by
  rw [Rat.isInt] at h
  have hd : d.den = 1 := by simpa using h
  have hnum := Rat.num_div_den d
  rw [hd] at hnum
  simpa using hnum.symm

/-- The valid range of an input is the negation of the source's invalid
test. -/
theorem valid_iff_not_invalid (x bound : ℚ) :
    (x.isInt = true ∧ 0 ≤ x ∧ x ≤ bound) ↔
      ¬(x < 0 ∨ bound < x ∨ x.isInt = false) := by
  push_neg
  constructor
  · rintro ⟨hi, h0, hb⟩
    exact ⟨h0, hb, Bool.ne_false_iff.mpr hi⟩
  · rintro ⟨h0, hb, hne⟩
    exact ⟨Bool.ne_false_iff.mp hne, h0, hb⟩

/-- Splitting a validated time component `x ∈ [0, 59]` into `⌊x/10⌋` and
`x − 10⌊x/10⌋` yields two valid digits. -/
theorem time_digit_split_valid (x : ℚ) (hi : x.isInt = true) (h0 : 0 ≤ x)
    (hb : x ≤ 59) :
    ((((x / 10).floor : ℤ) : ℚ).isInt = true ∧
      0 ≤ (((x / 10).floor : ℤ) : ℚ) ∧ (((x / 10).floor : ℤ) : ℚ) ≤ 9) ∧
    ((x - 10 * (((x / 10).floor : ℤ) : ℚ)).isInt = true ∧
      0 ≤ x - 10 * (((x / 10).floor : ℤ) : ℚ) ∧
      x - 10 * (((x / 10).floor : ℤ) : ℚ) ≤ 9) := by
  have hfl : (((x / 10 : ℚ).floor : ℤ) : ℚ) ≤ x / 10 := Int.floor_le _
  have hflgt : x / 10 < (((x / 10 : ℚ).floor : ℤ) : ℚ) + 1 :=
    Int.lt_floor_add_one _
  have h0f : (0 : ℚ) ≤ (((x / 10).floor : ℤ) : ℚ) := by
    have h10 : (0 : ℚ) ≤ x / 10 := by linarith
    have : (0 : ℤ) ≤ (x / 10).floor := Int.floor_nonneg.mpr h10
    exact_mod_cast this
  have hxn := isInt_eq_numCast x hi
  have hremInt : x - 10 * (((x / 10).floor : ℤ) : ℚ)
      = ((x.num - 10 * (x / 10).floor : ℤ) : ℚ) := by
    push_cast
    rw [← hxn]
  refine ⟨⟨intCast_isInt _, h0f, by linarith⟩, ?_, by linarith, ?_⟩
  · rw [hremInt]
    exact intCast_isInt _
  · have hlt : x - 10 * (((x / 10).floor : ℤ) : ℚ) < 10 := by linarith
    rw [hremInt] at hlt ⊢
    have h10 : (x.num - 10 * (x / 10).floor : ℤ) < 10 := by exact_mod_cast hlt
    have h9 : (x.num - 10 * (x / 10).floor : ℤ) ≤ 9 := by omega
    exact_mod_cast h9

/-- `1.5` is not an integer value. -/
theorem three_half_not_int : ((3 : ℚ) / 2).isInt = false := by
  rw [Bool.eq_false_iff]
  intro hi
  have heq := isInt_eq_numCast _ hi
  have h1 : (2 : ℚ) * ((3 : ℚ) / 2) = 3 := by norm_num
  rw [heq] at h1
  have h2 : ((2 * ((3 : ℚ) / 2).num : ℤ) : ℚ) = ((3 : ℤ) : ℚ) := by
    push_cast
    linarith
  have h3 : (2 * ((3 : ℚ) / 2).num : ℤ) = 3 := by exact_mod_cast h2
  omega

/-- Hour `0` passes the hours validation. -/
theorem zero_time_valid :
    ¬((0 : ℚ) < 0 ∨ (23 : ℚ) < 0 ∨ (0 : ℚ).isInt = false) := by
  push_neg
  refine ⟨le_refl 0, by norm_num, ?_⟩
  rw [Bool.ne_false_iff]
  simpa using intCast_isInt 0

/-- C8: `tileDigit` fails exactly for digits that are not integers in
`[0, 9]`, and `tileTime` fails exactly when the hours are not an integer in
`[0, 23]` or the minutes are not an integer in `[0, 59]`; the error is
raised by the validation branch before any `tileGrid` search runs, inputs
are never clamped (an invalid input can never produce a success), and the
specific instances `tileDigit(-1)`, `tileDigit(10)`, `tileDigit(1.5)`,
`tileTime(24,0)` and `tileTime(0,60)` all fail. -/
theorem tileDigit_tileTime_validation (d h m : ℚ) (options : TileOptions)
    (c : Nat) :
    (isError (tileDigit d options c) = true ↔
      ¬(d.isInt = true ∧ 0 ≤ d ∧ d ≤ 9)) ∧
    (isError (tileTime h m options c) = true ↔
      ¬((h.isInt = true ∧ 0 ≤ h ∧ h ≤ 23) ∧
        (m.isInt = true ∧ 0 ≤ m ∧ m ≤ 59))) ∧
    isError (tileDigit (-1) options c) = true ∧
    isError (tileDigit 10 options c) = true ∧
    isError (tileDigit (3 / 2) options c) = true ∧
    isError (tileTime 24 0 options c) = true ∧
    isError (tileTime 0 60 options c) = true := by
  have digitIff : ∀ (x : ℚ) (oo : TileOptions) (cc : Nat),
      isError (tileDigit x oo cc) = true ↔
        ¬(x.isInt = true ∧ 0 ≤ x ∧ x ≤ 9) := by
    intro x oo cc
    by_cases hx : x < 0 ∨ 9 < x ∨ x.isInt = false
    · rw [tileDigit, if_pos hx]
      exact iff_of_true rfl (fun hv => ((valid_iff_not_invalid x 9).mp hv) hx)
    · have hv := (valid_iff_not_invalid x 9).mpr hx
      rw [tileDigit, if_neg hx]
      exact iff_of_false (by simp [isError]) (not_not_intro hv)
  have timeIff : isError (tileTime h m options c) = true ↔
      ¬((h.isInt = true ∧ 0 ≤ h ∧ h ≤ 23) ∧
        (m.isInt = true ∧ 0 ≤ m ∧ m ≤ 59)) := by
    by_cases hH : h < 0 ∨ 23 < h ∨ h.isInt = false
    · rw [tileTime, if_pos hH]
      exact iff_of_true rfl
        (fun hv => ((valid_iff_not_invalid h 23).mp hv.1) hH)
    · by_cases hM : m < 0 ∨ 59 < m ∨ m.isInt = false
      · rw [tileTime, if_neg hH, if_pos hM]
        exact iff_of_true rfl
          (fun hv => ((valid_iff_not_invalid m 59).mp hv.2) hM)
      · have hvH := (valid_iff_not_invalid h 23).mpr hH
        have hvM := (valid_iff_not_invalid m 59).mpr hM
        have hsplitH := time_digit_split_valid h hvH.1 hvH.2.1
          (le_trans hvH.2.2 (by norm_num))
        have hsplitM := time_digit_split_valid m hvM.1 hvM.2.1 hvM.2.2
        have mkOk : ∀ (x : ℚ), (x.isInt = true ∧ 0 ≤ x ∧ x ≤ 9) →
            ∀ (oo : TileOptions) (cc : Nat),
            tileDigit x oo cc = .ok (tileGrid DIGIT_ROWS DIGIT_COLS
              (DIGIT_PATTERNS x.floor.toNat) oo cc) := by
          intro x hxv oo cc
          rw [tileDigit, if_neg]
          rw [← valid_iff_not_invalid]
          exact hxv
        have e1 := mkOk _ hsplitH.1
        have e2 := mkOk _ hsplitH.2
        have e3 := mkOk _ hsplitM.1
        have e4 := mkOk _ hsplitM.2
        rw [tileTime, if_neg hH, if_neg hM]
        simp only [e1, e2, e3, e4]
        exact iff_of_false (by simp [isError]) (not_not_intro ⟨hvH, hvM⟩)
  refine ⟨digitIff d options c, timeIff, ?_, ?_, ?_, ?_, ?_⟩
  · rw [tileDigit, if_pos (by norm_num : (-1 : ℚ) < 0 ∨ (9:ℚ) < -1 ∨ (-1:ℚ).isInt = false)]
    rfl
  · rw [tileDigit, if_pos (by norm_num : (10 : ℚ) < 0 ∨ (9:ℚ) < 10 ∨ (10:ℚ).isInt = false)]
    rfl
  · rw [tileDigit, if_pos]
    · rfl
    · exact Or.inr (Or.inr three_half_not_int)
  · rw [tileTime, if_pos (by norm_num : (24 : ℚ) < 0 ∨ (23:ℚ) < 24 ∨ (24:ℚ).isInt = false)]
    rfl
  · rw [tileTime]
    rw [if_neg zero_time_valid]
    rw [if_pos (by norm_num : (60 : ℚ) < 0 ∨ (59:ℚ) < 60 ∨ (60:ℚ).isInt = false)]
    rfl

/-- `setCell` does not change the placed-piece registry (or the grid's
dimensions or mask). -/
theorem Grid.setCell_placedPieces (g : Grid) (c : Cell)
    (v : Option PlacedTetromino) :
    (g.setCell c v).placedPieces = g.placedPieces := by
  unfold Grid.setCell
  split <;> rfl

/-- `setCell` preserves the number of rows of the occupancy table. -/
theorem Grid.setCell_length (g : Grid) (c : Cell)
    (v : Option PlacedTetromino) :
    (g.setCell c v).cells.length = g.cells.length := by
  unfold Grid.setCell
  split <;> simp

/-- `setCell` preserves the length of every row of the occupancy table. -/
theorem Grid.setCell_rowlen (g : Grid) (c : Cell)
    (v : Option PlacedTetromino) (r : Nat) :
    ((g.setCell c v).cells.get? r).map List.length
      = (g.cells.get? r).map List.length := by
  unfold Grid.setCell
  split
  · by_cases hr : c.row.toNat = r
    · subst hr
      rename_i hG
      have hlt : c.row.toNat < g.cells.length := by omega
      rw [List.get?_set_eq_of_lt _ hlt]
      match hq : g.cells.get? c.row.toNat with
      | none =>
          exact absurd (List.get?_eq_none.mp hq) (by omega)
      | some rowO =>
          have hq2 : g.cells[c.row.toNat]? = some rowO := by
            rw [← List.get?_eq_getElem?]
            exact hq
          simp [List.getD, hq2]
    · rw [List.get?_set_ne _ _ hr]
  · rfl

/-- An entry untouched by `setCell` is unchanged. -/
theorem Grid.entry_setCell_ne (g : Grid) (c : Cell)
    (v : Option PlacedTetromino) (r k : Nat)
    (h : ¬(r = c.row.toNat ∧ k = c.col.toNat)) :
    ((g.setCell c v).cells.get? r).bind (fun row => row.get? k)
      = (g.cells.get? r).bind (fun row => row.get? k) := by
  unfold Grid.setCell
  split
  · rename_i hG
    by_cases hr : c.row.toNat = r
    · subst hr
      have hk : k ≠ c.col.toNat := fun hk => h ⟨rfl, hk⟩
      have hlt : c.row.toNat < g.cells.length := by omega
      rw [List.get?_set_eq_of_lt _ hlt]
      match hq : g.cells.get? c.row.toNat with
      | none =>
          exact absurd (List.get?_eq_none.mp hq) (by omega)
      | some rowO =>
          simp only [List.getD, hq, Option.getD_some, Option.bind_some,
            Option.some_bind]
          exact List.get?_set_ne _ _ (fun hc => hk hc.symm)
    · rw [List.get?_set_ne _ _ hr]
  · rfl

/-- The entry written by an in-bounds `setCell` holds the written value. -/
theorem Grid.entry_setCell_self (g : Grid) (c : Cell)
    (v : Option PlacedTetromino)
    (hG : 0 ≤ c.row ∧ c.row < (g.cells.length : Int) ∧ 0 ≤ c.col)
    (hcol : c.col.toNat < (g.cells.getD c.row.toNat []).length) :
    ((g.setCell c v).cells.get? c.row.toNat).bind (fun row => row.get? c.col.toNat)
      = some v := by
  unfold Grid.setCell
  rw [if_pos hG]
  have hlt : c.row.toNat < g.cells.length := by omega
  rw [List.get?_set_eq_of_lt _ hlt]
  simp only [Option.some_bind, Option.bind_some]
  exact List.get?_set_eq_of_lt _ hcol

/-- Folding `setCell` over a cell list keeps the registry unchanged. -/
theorem Grid.fold_setCell_placedPieces (C : List Cell)
    (v : Option PlacedTetromino) :
    ∀ g : Grid, ((C.foldl (fun acc c => acc.setCell c v) g)).placedPieces
      = g.placedPieces := by
  induction C with
  | nil => intro g; rfl
  | cons c rest ih =>
      intro g
      rw [List.foldl_cons, ih, Grid.setCell_placedPieces]

/-- Folding `setCell` preserves the number of rows. -/
theorem Grid.fold_setCell_length (C : List Cell)
    (v : Option PlacedTetromino) :
    ∀ g : Grid, ((C.foldl (fun acc c => acc.setCell c v) g)).cells.length
      = g.cells.length := by
  induction C with
  | nil => intro g; rfl
  | cons c rest ih =>
      intro g
      rw [List.foldl_cons, ih, Grid.setCell_length]

/-- Folding `setCell` preserves every row length. -/
theorem Grid.fold_setCell_rowlen (C : List Cell)
    (v : Option PlacedTetromino) (r : Nat) :
    ∀ g : Grid,
      (((C.foldl (fun acc c => acc.setCell c v) g)).cells.get? r).map List.length
        = (g.cells.get? r).map List.length := by
  induction C with
  | nil => intro g; rfl
  | cons c rest ih =>
      intro g
      rw [List.foldl_cons, ih, Grid.setCell_rowlen]

/-- Two tables whose rows at `r` have equal lengths have equal
`getD`-row lengths. -/
theorem getD_len_of_rowlen_eq (l1 l2 : List (List α)) (r : Nat)
    (h : (l1.get? r).map List.length = (l2.get? r).map List.length) :
    (l1.getD r []).length = (l2.getD r []).length := by
  unfold List.getD
  match h1 : l1.get? r, h2 : l2.get? r with
  | none, none => rfl
  | none, some rowO => rw [h1, h2] at h; simp at h
  | some rowF, none => rw [h1, h2] at h; simp at h
  | some rowF, some rowO =>
      rw [h1, h2] at h
      simpa using h

/-- Folding `setCell` preserves the length of a `getD`-read row. -/
theorem Grid.fold_setCell_getD_len (C : List Cell)
    (v : Option PlacedTetromino) (r : Nat) (g : Grid) :
    (((C.foldl (fun acc c => acc.setCell c v) g)).cells.getD r []).length
      = (g.cells.getD r []).length :=
  getD_len_of_rowlen_eq _ _ r (Grid.fold_setCell_rowlen C v r g)

/-- An entry at a position not written by any cell of the list is unchanged
by the fold. -/
theorem Grid.entry_fold_not_mem (C : List Cell)
    (v : Option PlacedTetromino) (r k : Nat)
    (h : ∀ c ∈ C, ¬(r = c.row.toNat ∧ k = c.col.toNat)) :
    ∀ g : Grid,
      (((C.foldl (fun acc c => acc.setCell c v) g)).cells.get? r).bind
          (fun row => row.get? k)
        = (g.cells.get? r).bind (fun row => row.get? k) := by
  induction C with
  | nil => intro g; rfl
  | cons c rest ih =>
      intro g
      rw [List.foldl_cons,
        ih (fun d hd => h d (List.mem_cons_of_mem c hd)),
        Grid.entry_setCell_ne g c v r k (h c (List.mem_cons_self c rest))]

/-- An entry at a position written by some in-bounds cell of the list holds
the written value after the fold. -/
theorem Grid.entry_fold_mem (v : Option PlacedTetromino) (r k : Nat) :
    ∀ (C : List Cell) (g : Grid),
      (∀ c ∈ C, 0 ≤ c.row ∧ c.row < (g.cells.length : Int) ∧ 0 ≤ c.col ∧
        c.col.toNat < (g.cells.getD c.row.toNat []).length) →
      (∃ c ∈ C, r = c.row.toNat ∧ k = c.col.toNat) →
      (((C.foldl (fun acc c => acc.setCell c v) g)).cells.get? r).bind
          (fun row => row.get? k)
        = some v := by
  intro C
  induction C with
  | nil =>
      intro g _ hex
      obtain ⟨c, hc, _⟩ := hex
      exact absurd hc (List.not_mem_nil c)
  | cons c rest ih =>
      intro g hB hex
      rw [List.foldl_cons]
      by_cases hrest : ∃ d ∈ rest, r = d.row.toNat ∧ k = d.col.toNat
      · refine ih (g.setCell c v) ?_ hrest
        intro d hd
        have hBd := hB d (List.mem_cons_of_mem c hd)
        refine ⟨hBd.1, ?_, hBd.2.2.1, ?_⟩
        · rw [Grid.setCell_length]
          exact hBd.2.1
        · rw [getD_len_of_rowlen_eq _ _ d.row.toNat
            (Grid.setCell_rowlen g c v d.row.toNat)]
          exact hBd.2.2.2
      · obtain ⟨d, hd, hpos⟩ := hex
        have hdc : d = c := by
          rcases List.mem_cons.mp hd with h | h
          · exact h
          · exact absurd ⟨d, h, hpos⟩ hrest
        subst hdc
        have hnone : ∀ e ∈ rest, ¬(r = e.row.toNat ∧ k = e.col.toNat) :=
          fun e he hcontra => hrest ⟨e, he, hcontra⟩
        rw [Grid.entry_fold_not_mem rest v r k hnone (g.setCell d v)]
        obtain ⟨hr, hk⟩ := hpos
        subst hr
        subst hk
        exact Grid.entry_setCell_self g d v
          ⟨(hB d (List.mem_cons_self d rest)).1,
            (hB d (List.mem_cons_self d rest)).2.1,
            (hB d (List.mem_cons_self d rest)).2.2.1⟩
          (hB d (List.mem_cons_self d rest)).2.2.2

/-- `Map.set` with a key absent from the map appends the new entry. -/
theorem setAssoc_fresh [BEq κ] (l : List (κ × α)) (k : κ) (v : α)
    (h : ∀ e ∈ l, ¬((e.1 == k) = true)) :
    setAssoc l k v = l ++ [(k, v)] := by
  unfold setAssoc
  rw [if_neg]
  simp only [List.any_eq_true, not_exists, not_and]
  intro e hmem
  exact h e hmem

/-- `find?` skips a prefix on which the predicate fails. -/
theorem find?_append_right (l1 l2 : List α) (p : α → Bool)
    (h : ∀ e ∈ l1, ¬(p e = true)) :
    (l1 ++ l2).find? p = l2.find? p := by
  induction l1 with
  | nil => rfl
  | cons x xs ih =>
      rw [List.cons_append, List.find?_cons_of_neg, ih]
      · intro e he
        exact h e (List.mem_cons_of_mem x he)
      · exact h x (List.mem_cons_self x xs)

/-- The raw table entry behind an in-bounds `cellAt` read that returned
`null` is an explicit stored `null`. -/
theorem entry_of_cellAt_none (g : Grid) (c : Cell)
    (h0r : 0 ≤ c.row) (hr : c.row.toNat < g.cells.length)
    (h0c : 0 ≤ c.col) (hc : c.col.toNat < (g.cells.getD c.row.toNat []).length)
    (hnone : g.cellAt c = none) :
    (g.cells.get? c.row.toNat).bind (fun row => row.get? c.col.toNat)
      = some none := by
  unfold Grid.cellAt listGetInt at hnone
  rw [if_neg (by omega)] at hnone
  match hq : g.cells.get? c.row.toNat with
  | none => exact absurd (List.get?_eq_none.mp hq) (by omega)
  | some rowO =>
      rw [hq] at hnone
      simp only [Option.some_bind] at hnone
      rw [if_neg (by omega)] at hnone
      have hq2 : g.cells[c.row.toNat]? = some rowO := by
        rw [← List.get?_eq_getElem?]
        exact hq
      have hrowO : g.cells.getD c.row.toNat [] = rowO := by
        simp [List.getD, hq2]
      rw [hrowO] at hc
      match hx : rowO.get? c.col.toNat with
      | none => exact absurd (List.get?_eq_none.mp hx) (by omega)
      | some x =>
          rw [hx] at hnone
          cases x with
          | some p => exact absurd hnone (by simp [Option.join])
          | none =>
              simp only [Option.some_bind]
              rw [hx]

/-- C6: for every well-shaped grid state and every placement accepted by
`canPlace`, placing the piece and then removing it by its returned identity
restores the grid exactly: the occupancy table and the registry of placed
pieces are unchanged by the `place`/`remove` round trip.  (The identity
freshness hypothesis holds for every grid the solver builds, since
`generatePieceId` counts strictly upward.) -/
theorem place_remove_roundtrip (g : Grid) (counter : Nat) (t : TetrominoType)
    (i : Nat) (anchor : Cell)
    (hwf : g.cells.length = g.rows.toNat ∧
      ∀ row ∈ g.cells, row.length = g.cols.toNat)
    (hcan : g.canPlace t i anchor = true)
    (hfresh : ∀ e ∈ g.placedPieces, e.1 ≠ pieceIdString (counter + 1)) :
    ∃ piece g1 c1, g.place counter t i anchor = some (piece, g1, c1) ∧
      ∃ g2, g1.remove piece.id = some g2 ∧
        g2.cells = g.cells ∧ g2.placedPieces = g.placedPieces := by
  have hcan2 := hcan
  simp only [Grid.canPlace, Bool.and_eq_true, List.all_eq_true,
    decide_eq_true_eq, Option.isNone_iff_eq_none, and_assoc] at hcan2
  obtain ⟨hBnd, hOcc, _⟩ := hcan2
  have hB : ∀ c ∈ getAbsoluteCells t i anchor,
      0 ≤ c.row ∧ c.row < (g.cells.length : Int) ∧ 0 ≤ c.col ∧
      c.col.toNat < (g.cells.getD c.row.toNat []).length := by
    intro c hc
    obtain ⟨h1, h2, h3, h4⟩ := hBnd c hc
    have hlen := hwf.1
    have hrn : c.row.toNat < g.cells.length := by omega
    refine ⟨h1, by omega, h3, ?_⟩
    have hrow := hwf.2 _ (getD_mem_of_lt g.cells c.row.toNat [] hrn)
    rw [hrow]
    omega
  rw [Grid.place, if_pos hcan]
  refine ⟨_, _, _, rfl, ?_⟩
  simp only [Grid.placeUnchecked]
  set C := getAbsoluteCells t i anchor with hCdef
  set pc : PlacedTetromino :=
    { id := pieceIdString (counter + 1)
      type := t
      rotationIndex := i
      anchor := anchor
      cells := C
      isLit := g.maskAt (C.headD ⟨0, 0⟩) } with hpcdef
  set foldG := C.foldl (fun acc c => acc.setCell c (some pc)) g with hfoldG
  -- the registry after place
  have hfreshB : ∀ e ∈ g.placedPieces, ¬((e.1 == pieceIdString (counter + 1)) = true) := by
    intro e he hbeq
    exact hfresh e he (by simpa using hbeq)
  have hreg : setAssoc foldG.placedPieces (pieceIdString (counter + 1)) pc
      = g.placedPieces ++ [(pieceIdString (counter + 1), pc)] := by
    rw [Grid.fold_setCell_placedPieces]
    exact setAssoc_fresh _ _ _ hfreshB
  have hfind : (g.placedPieces ++ [(pieceIdString (counter + 1), pc)]).find?
      (fun e => e.1 == pieceIdString (counter + 1)) = some (pieceIdString (counter + 1), pc) := by
    rw [find?_append_right _ _ _ hfreshB]
    simp [List.find?]
  rw [Grid.remove]
  simp only [hreg, hfind]
  refine ⟨_, rfl, ?_, ?_⟩
  · -- occupancy table restored
    set Gmid : Grid := { foldG with
      placedPieces := g.placedPieces ++ [(pieceIdString (counter + 1), pc)] } with hGmid
    set g2c := C.foldl (fun acc c => acc.setCell c none) Gmid with hg2c
    have hGmidCells : Gmid.cells = foldG.cells := rfl
    have hBmid : ∀ c ∈ C, 0 ≤ c.row ∧ c.row < (Gmid.cells.length : Int) ∧
        0 ≤ c.col ∧ c.col.toNat < (Gmid.cells.getD c.row.toNat []).length := by
      intro c hc
      obtain ⟨h1, h2, h3, h4⟩ := hB c hc
      refine ⟨h1, ?_, h3, ?_⟩
      · rw [hGmidCells, hfoldG, Grid.fold_setCell_length]
        exact h2
      · have : (Gmid.cells.getD c.row.toNat []).length
            = (g.cells.getD c.row.toNat []).length := by
          rw [hGmidCells, hfoldG]
          exact Grid.fold_setCell_getD_len C (some pc) c.row.toNat g
        rw [this]
        exact h4
    have hentry : ∀ r k : Nat,
        (g2c.cells.get? r).bind (fun row => row.get? k)
          = (g.cells.get? r).bind (fun row => row.get? k) := by
      intro r k
      by_cases hmatch : ∃ c ∈ C, r = c.row.toNat ∧ k = c.col.toNat
      · rw [hg2c, Grid.entry_fold_mem none r k C Gmid hBmid hmatch]
        obtain ⟨c, hc, hr, hk⟩ := hmatch
        subst hr
        subst hk
        obtain ⟨h1, h2, h3, h4⟩ := hB c hc
        exact (entry_of_cellAt_none g c h1 (by omega) h3 h4 (hOcc c hc)).symm
      · have hnm : ∀ c ∈ C, ¬(r = c.row.toNat ∧ k = c.col.toNat) :=
          fun c hc hcon => hmatch ⟨c, hc, hcon⟩
        rw [hg2c, Grid.entry_fold_not_mem C none r k hnm Gmid]
        show (foldG.cells.get? r).bind (fun row => row.get? k) = _
        rw [hfoldG, Grid.entry_fold_not_mem C (some pc) r k hnm g]
    have hlen2 : g2c.cells.length = g.cells.length := by
      rw [hg2c, Grid.fold_setCell_length, hGmidCells, hfoldG,
        Grid.fold_setCell_length]
    show g2c.cells = g.cells
    apply List.ext
    intro r
    match hx : g2c.cells.get? r, hy : g.cells.get? r with
    | none, none => rfl
    | none, some rowO =>
        have := List.get?_eq_none.mp hx
        have h2 : ¬ (g.cells.length ≤ r) := by
          intro hle
          rw [List.get?_eq_none.mpr hle] at hy
          exact Option.noConfusion hy
        omega
    | some rowF, none =>
        have := List.get?_eq_none.mp hy
        have h2 : ¬ (g2c.cells.length ≤ r) := by
          intro hle
          rw [List.get?_eq_none.mpr hle] at hx
          exact Option.noConfusion hx
        omega
    | some rowF, some rowO =>
        congr 1
        apply List.ext
        intro k
        have he := hentry r k
        rw [hx, hy] at he
        simpa using he
  · -- registry restored
    show (List.filter (fun q => decide ¬(q.1 == pieceIdString (counter + 1)) = true)
      (List.foldl (fun (acc : Grid) (c : Cell) => acc.setCell c none)
        ({ rows := foldG.rows, cols := foldG.cols, cells := foldG.cells,
           mask := foldG.mask,
           placedPieces := g.placedPieces ++ [(pieceIdString (counter + 1), pc)] } : Grid)
        C).placedPieces) = g.placedPieces
    rw [Grid.fold_setCell_placedPieces]
    show (List.filter (fun q => decide ¬(q.1 == pieceIdString (counter + 1)) = true)
      (g.placedPieces ++ [(pieceIdString (counter + 1), pc)])) = g.placedPieces
    rw [List.filter_append]
    have h1 : (g.placedPieces.filter
        (fun q => decide ¬(q.1 == pieceIdString (counter + 1)) = true))
        = g.placedPieces := by
      apply List.filter_eq_self.mpr
      intro e he
      simp only [decide_eq_true_eq]
      exact hfreshB e he
    have h2 : (([(pieceIdString (counter + 1), pc)]).filter
        (fun q => decide ¬(q.1 == pieceIdString (counter + 1)) = true))
        = ([] : List (String × PlacedTetromino)) := by
      simp [List.filter]
    rw [h1, h2, List.append_nil]

/-- C6 witness: the round trip at a concrete input — an O piece placed at
the origin of a fresh 2×2 grid and removed again. -/
theorem place_remove_roundtrip_witness :
    ∃ piece g1 c1,
      (Grid.make 2 2 none).place 0 .O 0 ⟨0, 0⟩ = some (piece, g1, c1) ∧
      ∃ g2, g1.remove piece.id = some g2 ∧
        g2.cells = (Grid.make 2 2 none).cells ∧
        g2.placedPieces = (Grid.make 2 2 none).placedPieces :=
  place_remove_roundtrip (Grid.make 2 2 none) 0 .O 0 ⟨0, 0⟩
    ⟨by decide, by decide⟩ (by decide) (by decide)

/-! ## Helper lemmas for the sequencer proofs: folds, ranges, sorting -/

theorem foldl_min_le (xs : List Int) : ∀ x : Int, xs.foldl min x ≤ x := by
  induction xs with
  | nil => intro x; exact le_refl x
  | cons y ys ih =>
      intro x
      calc (y :: ys).foldl min x = ys.foldl min (min x y) := rfl
        _ ≤ min x y := ih (min x y)
        _ ≤ x := min_le_left x y

theorem le_foldl_max (xs : List Int) : ∀ x : Int, x ≤ xs.foldl max x := by
  induction xs with
  | nil => intro x; exact le_refl x
  | cons y ys ih =>
      intro x
      calc x ≤ max x y := le_max_left x y
        _ ≤ ys.foldl max (max x y) := ih (max x y)
        _ = (y :: ys).foldl max x := rfl

theorem jsMin_le_jsMax (l : List Int) (h : l ≠ []) : jsMinList l ≤ jsMaxList l := by
  cases l with
  | nil => exact absurd rfl h
  | cons x xs =>
      calc jsMinList (x :: xs) = xs.foldl min x := rfl
        _ ≤ x := foldl_min_le xs x
        _ ≤ xs.foldl max x := le_foldl_max xs x
        _ = jsMaxList (x :: xs) := rfl

theorem intRangeIncl_chain (a b : Int) :
    List.Chain' (fun x y => y = x + 1) (intRangeIncl a b) := by
  unfold intRangeIncl
  rw [List.chain'_map, List.chain'_iff_get]
  intro i h
  simp only [List.get_eq_getElem, List.getElem_range, Int.ofNat_eq_coe]
  push_cast
  ring

theorem intRangeIncl_getLast (a b : Int) (h : a ≤ b) :
    (intRangeIncl a b).getLast? = some b := by
  unfold intRangeIncl
  have hn : (b + 1 - a).toNat = (b - a).toNat + 1 := by omega
  rw [hn, List.range_succ, List.map_append, List.map_singleton, List.getLast?_concat]
  congr 1
  simp only [Int.ofNat_eq_coe]
  omega

theorem getLast?_cons_concat (a b : α) (l1 l2 l3 : List α) :
    (a :: (l1 ++ l2 ++ l3 ++ [b])).getLast? = some b := by
  rw [show a :: (l1 ++ l2 ++ l3 ++ [b]) = (a :: (l1 ++ l2 ++ l3)) ++ [b] from rfl,
    List.getLast?_concat]

theorem insertLe_perm (le : α → α → Bool) (x : α) (l : List α) :
    (insertLe le x l).Perm (x :: l) := by
  induction l with
  | nil => exact List.Perm.refl _
  | cons y ys ih =>
      unfold insertLe
      split
      · exact (List.Perm.cons y ih).trans (List.Perm.swap x y ys)
      · exact List.Perm.refl _

theorem stableSortBy_perm (le : α → α → Bool) (l : List α) :
    (stableSortBy le l).Perm l := by
  unfold stableSortBy
  suffices H : ∀ acc : List α,
      (l.foldl (fun acc x => insertLe le x acc) acc).Perm (acc ++ l) by
    simpa using H []
  induction l with
  | nil => intro acc; simp
  | cons x xs ih =>
      intro acc
      rw [List.foldl_cons]
      refine (ih (insertLe le x acc)).trans ?_
      refine ((insertLe_perm le x acc).append_right xs).trans ?_
      exact List.perm_middle.symm

theorem mem_stableSortBy (le : α → α → Bool) (l : List α) (x : α)
    (h : x ∈ stableSortBy le l) : x ∈ l :=
  (stableSortBy_perm le l).mem_iff.mp h

theorem filterMap_eq_map_of_some (f : α → Option β) (g : α → β) (l : List α)
    (h : ∀ a ∈ l, f a = some (g a)) : l.filterMap f = l.map g := by
  induction l with
  | nil => rfl
  | cons a as ih =>
      rw [List.filterMap_cons_some (h a (List.mem_cons_self a as)), List.map_cons,
        ih (fun b hb => h b (List.mem_cons_of_mem a hb))]

/-! ## Helper lemmas for the sequencer proofs: association lists -/

theorem lookupAssoc_mem [BEq κ] (l : List (κ × α)) (k : κ) (v : α)
    (h : lookupAssoc l k = some v) : ∃ e ∈ l, (e.1 == k) = true ∧ e.2 = v := by
  unfold lookupAssoc at h
  rcases Option.map_eq_some'.mp h with ⟨e, he, hev⟩
  have hp := List.find?_some he
  exact ⟨e, List.mem_of_find?_eq_some he, hp, hev⟩

theorem mem_setAssoc [BEq κ] (l : List (κ × α)) (k : κ) (v : α) (x : κ × α)
    (h : x ∈ setAssoc l k v) : x ∈ l ∨ x = (k, v) := by
  unfold setAssoc at h
  split at h
  · rcases List.mem_map.mp h with ⟨e, he, hex⟩
    by_cases hk : (e.1 == k) = true
    · right; rw [if_pos hk] at hex; exact hex.symm
    · left; rw [if_neg hk] at hex; exact hex ▸ he
  · rcases List.mem_append.mp h with h1 | h1
    · exact Or.inl h1
    · right; simpa using h1

theorem mem_mapFromPairs [BEq κ] (l : List (κ × α)) (x : κ × α)
    (h : x ∈ mapFromPairs l) : x ∈ l := by
  unfold mapFromPairs at h
  suffices H : ∀ acc : List (κ × α),
      x ∈ l.foldl (fun acc e => setAssoc acc e.1 e.2) acc → x ∈ acc ∨ x ∈ l by
    rcases H [] h with h1 | h1
    · exact absurd h1 (List.not_mem_nil x)
    · exact h1
  clear h
  induction l with
  | nil => intro acc h; exact Or.inl h
  | cons e es ih =>
      intro acc h
      rcases ih (setAssoc acc e.1 e.2) h with h1 | h1
      · rcases mem_setAssoc acc e.1 e.2 x h1 with h2 | h2
        · exact Or.inl h2
        · right; rw [h2]; exact List.mem_cons_self e es
      · exact Or.inr (List.mem_cons_of_mem e h1)

theorem setAssoc_keys [BEq κ] [LawfulBEq κ] (l : List (κ × α)) (k : κ) (v : α)
    (h : k ∈ l.map (fun e => e.1)) :
    (setAssoc l k v).map (fun e => e.1) = l.map (fun e => e.1) := by
  have hany : l.any (fun e => e.1 == k) = true := by
    rcases List.mem_map.mp h with ⟨e, he, hek⟩
    exact List.any_eq_true.mpr ⟨e, he, beq_iff_eq.mpr hek⟩
  unfold setAssoc
  rw [if_pos hany, List.map_map]
  refine List.map_congr_left ?_
  intro e he
  by_cases hk : (e.1 == k) = true
  · simp only [Function.comp_apply, if_pos hk]
    exact (beq_iff_eq.mp hk).symm
  · simp only [Function.comp_apply, if_neg hk]

theorem find?_self_map [BEq κ] [LawfulBEq κ] (l : List (κ × α)) (k : κ) (v : α) :
    (l.map (fun e => if e.1 == k then (k, v) else e)).find? (fun e => e.1 == k)
      = if l.any (fun e => e.1 == k) then some (k, v) else none := by
  induction l with
  | nil => rfl
  | cons e es ih =>
      by_cases hk : (e.1 == k) = true
      · have hany : ((e :: es).any (fun e => e.1 == k)) = true :=
          List.any_eq_true.mpr ⟨e, List.mem_cons_self e es, hk⟩
        rw [List.map_cons, if_pos hk, if_pos hany]
        simp only [List.find?_cons, beq_self_eq_true]
      · have hk' : (e.1 == k) = false := by simpa using hk
        rw [List.map_cons, if_neg hk]
        simp only [List.find?_cons, hk', List.any_cons, Bool.false_or, ih]

theorem lookup_setAssoc_self [BEq κ] [LawfulBEq κ] (l : List (κ × α)) (k : κ) (v : α) :
    lookupAssoc (setAssoc l k v) k = some v := by
  unfold setAssoc lookupAssoc
  by_cases hany : l.any (fun e => e.1 == k) = true
  · rw [if_pos hany, find?_self_map, if_pos hany]
    rfl
  · have hnone : l.find? (fun e => e.1 == k) = none :=
      List.find?_eq_none.mpr (fun e he hpe => hany (List.any_eq_true.mpr ⟨e, he, hpe⟩))
    rw [if_neg hany, List.find?_append, hnone, Option.none_or]
    simp [List.find?_cons]

theorem find?_map_setAssoc_ne [BEq κ] [LawfulBEq κ] (l : List (κ × α)) (k k' : κ) (v : α)
    (h : ¬(k' = k)) :
    (l.map (fun e => if e.1 == k then (k, v) else e)).find? (fun e => e.1 == k')
      = l.find? (fun e => e.1 == k') := by
  induction l with
  | nil => rfl
  | cons e es ih =>
      by_cases hk : (e.1 == k) = true
      · have hek : e.1 = k := beq_iff_eq.mp hk
        have h1 : (k == k') = false := by
          have hne : ¬ ((k == k') = true) := fun hp => h (beq_iff_eq.mp hp).symm
          simpa using hne
        have h2 : (e.1 == k') = false := by
          have hne : ¬ ((e.1 == k') = true) := by
            intro hp
            have hkk : k = k' := by rw [← hek, beq_iff_eq.mp hp]
            exact h hkk.symm
          simpa using hne
        rw [List.map_cons, if_pos hk]
        simp only [List.find?_cons, h1, h2, ih]
      · rw [List.map_cons, if_neg hk]
        simp only [List.find?_cons, ih]

theorem lookup_setAssoc_ne [BEq κ] [LawfulBEq κ] (l : List (κ × α)) (k k' : κ) (v : α)
    (h : ¬(k' = k)) : lookupAssoc (setAssoc l k v) k' = lookupAssoc l k' := by
  unfold setAssoc lookupAssoc
  split
  · rw [find?_map_setAssoc_ne l k k' v h]
  · have hkk : (k == k') = false := by
      have hne : ¬ ((k == k') = true) := fun hp => h (beq_iff_eq.mp hp).symm
      simpa using hne
    have h1 : ([(k, v)].find? (fun e => e.1 == k')) = none := by
      simp [List.find?_cons, hkk]
    rw [List.find?_append, h1, Option.or_none]

theorem mem_lookup_nodup [BEq κ] [LawfulBEq κ] (l : List (κ × α)) (k : κ) (v : α)
    (hnd : (l.map (fun e => e.1)).Nodup) (hm : (k, v) ∈ l) :
    lookupAssoc l k = some v := by
  unfold lookupAssoc
  revert hnd hm
  induction l with
  | nil => intro hnd hm; exact absurd hm (List.not_mem_nil _)
  | cons e es ih =>
      intro hnd hm
      rcases List.mem_cons.mp hm with he | he
      · rw [← he]
        simp [List.find?_cons]
      · have hk : ¬ ((e.1 == k) = true) := by
          intro hp
          have hek : e.1 = k := beq_iff_eq.mp hp
          have h1 : k ∈ es.map (fun e => e.1) := List.mem_map.mpr ⟨(k, v), he, rfl⟩
          rw [List.map_cons, List.nodup_cons] at hnd
          exact hnd.1 (by rw [hek]; exact h1)
        have hk2 : (e.1 == k) = false := by simpa using hk
        simp only [List.find?_cons, hk2]
        refine ih ?_ he
        rw [List.map_cons, List.nodup_cons] at hnd
        exact hnd.2

theorem mapFromPairs_nodup_id [BEq κ] [LawfulBEq κ] (l : List (κ × α))
    (hnd : (l.map (fun e => e.1)).Nodup) : mapFromPairs l = l := by
  unfold mapFromPairs
  suffices H : ∀ acc : List (κ × α),
      ((acc.map (fun e => e.1)) ++ (l.map (fun e => e.1))).Nodup →
      l.foldl (fun acc e => setAssoc acc e.1 e.2) acc = acc ++ l by
    simpa using H [] (by simpa using hnd)
  clear hnd
  induction l with
  | nil => intro acc h; simp
  | cons e es ih =>
      intro acc h
      have hkey : ¬ (e.1 ∈ acc.map (fun q => q.1)) := by
        intro hmem
        rw [List.nodup_append] at h
        exact h.2.2 hmem (by simp)
      have hset : setAssoc acc e.1 e.2 = acc ++ [(e.1, e.2)] := by
        unfold setAssoc
        rw [if_neg]
        intro hany
        rcases List.any_eq_true.mp hany with ⟨x, hx, hpx⟩
        exact hkey (List.mem_map.mpr ⟨x, hx, beq_iff_eq.mp hpx⟩)
      have h2 : (((acc ++ [(e.1, e.2)]).map (fun q => q.1))
          ++ (es.map (fun q => q.1))).Nodup := by
        rw [List.map_append, List.append_assoc]
        simpa using h
      rw [List.foldl_cons, hset, ih (acc ++ [(e.1, e.2)]) h2, List.append_assoc]
      simp

theorem dedupFirst_nodup_id [BEq κ] [LawfulBEq κ] (l : List κ) (hnd : l.Nodup) :
    dedupFirst l = l := by
  unfold dedupFirst
  suffices H : ∀ acc : List κ, (acc ++ l).Nodup →
      l.foldl (fun acc x => if acc.contains x then acc else acc ++ [x]) acc
        = acc ++ l by
    simpa using H [] (by simpa using hnd)
  clear hnd
  induction l with
  | nil => intro acc h; simp
  | cons x xs ih =>
      intro acc h
      have hxmem : x ∉ acc := by
        rw [List.nodup_append] at h
        intro hmem
        exact h.2.2 hmem (List.mem_cons_self x xs)
      have hx : ¬ (acc.contains x = true) := by
        intro hc
        exact hxmem (List.elem_iff.mp hc)
      have h2 : ((acc ++ [x]) ++ xs).Nodup := by
        rw [List.append_assoc]
        simpa using h
      rw [List.foldl_cons, if_neg hx, ih (acc ++ [x]) h2, List.append_assoc]
      simp

theorem keys_pairs_eq (pieces : List PlacedTetromino) :
    (pieces.map (fun p => (p.id, p))).map (fun e => e.1)
      = pieces.map (fun p => p.id) := by
  rw [List.map_map]
  rfl

theorem pieceMap_mem (pieces : List PlacedTetromino) (k : String) (v : PlacedTetromino)
    (h : lookupAssoc (mapFromPairs (pieces.map (fun p => (p.id, p)))) k = some v) :
    v ∈ pieces ∧ v.id = k := by
  rcases lookupAssoc_mem _ k v h with ⟨e, he, hpk, hev⟩
  have he2 : e ∈ pieces.map (fun p => (p.id, p)) := mem_mapFromPairs _ e he
  rcases List.mem_map.mp he2 with ⟨p, hp, hpe⟩
  have h1 : v = p := by rw [← hev, ← hpe]
  have h2 : e.1 = k := beq_iff_eq.mp hpk
  constructor
  · rw [h1]; exact hp
  · rw [h1, ← h2, ← hpe]

theorem filter_shape (sstep lstep : PlacementStep)
    (rsteps msteps dsteps : List PlacementStep) (p : PlacementStep → Bool)
    (hs : p sstep = false) (hl : p lstep = false)
    (hm : msteps.filter p = []) (hd : dsteps.filter p = []) :
    (sstep :: (rsteps ++ msteps ++ dsteps ++ [lstep])).filter p
      = rsteps.filter p := by
  have hs' : ¬ (p sstep = true) := by simp [hs]
  have hl' : [lstep].filter p = [] := by simp [List.filter, hl]
  rw [List.filter_cons_of_neg hs', List.filter_append, List.filter_append,
    List.filter_append, hm, hd, hl']
  simp

theorem filterMap_some_id (l : List Int) (f : Int → Option Int)
    (h : ∀ a ∈ l, f a = some a) : l.filterMap f = l := by
  induction l with
  | nil => rfl
  | cons a as ih =>
      rw [List.filterMap_cons_some (h a (List.mem_cons_self a as)),
        ih (fun b hb => h b (List.mem_cons_of_mem a hb))]

theorem filterMap_shape (sstep lstep : PlacementStep)
    (rsteps msteps dsteps : List PlacementStep) (f : PlacementStep → Option Int)
    (hs : f sstep = none) (hl : f lstep = none)
    (hr : rsteps.filterMap f = []) (hm : msteps.filterMap f = []) :
    (sstep :: (rsteps ++ msteps ++ dsteps ++ [lstep])).filterMap f
      = dsteps.filterMap f := by
  have hl' : [lstep].filterMap f = [] := by
    rw [List.filterMap_cons_none hl]
    rfl
  rw [List.filterMap_cons_none hs, List.filterMap_append, List.filterMap_append,
    List.filterMap_append, hr, hm, hl']
  simp

theorem generateSteps_head (p : PlacedTetromino) (gridCols gridRows : Int) :
    ((generateSteps p gridCols gridRows).head?).map PlacementStep.action
      = some StepAction.spawn := rfl

theorem generateSteps_last (p : PlacedTetromino) (gridCols gridRows : Int) :
    ((generateSteps p gridCols gridRows).getLast?).map PlacementStep.action
      = some StepAction.lock := by
  simp only [generateSteps]
  rw [getLast?_cons_concat]
  rfl

theorem generateSteps_rotateCount (p : PlacedTetromino) (gridCols gridRows : Int) :
    ((generateSteps p gridCols gridRows).filter
        (fun s => s.action == StepAction.rotate)).length = p.rotationIndex := by
  simp only [generateSteps]
  rw [filter_shape]
  · rw [List.filter_eq_self.mpr (fun a ha => by rw [List.eq_of_mem_replicate ha]; rfl)]
    simp
  · rfl
  · rfl
  · refine List.filter_eq_nil_iff.mpr ?_
    intro a ha
    split at ha
    · exact absurd ha (List.not_mem_nil a)
    · rcases List.mem_map.mp ha with ⟨i, hi, hia⟩
      rw [← hia]
      simp
  · refine List.filter_eq_nil_iff.mpr ?_
    intro a ha
    rcases List.mem_map.mp ha with ⟨row, hrow, hra⟩
    rw [← hra]
    simp

theorem generateSteps_dropRows (p : PlacedTetromino) (gridCols gridRows : Int) :
    (generateSteps p gridCols gridRows).filterMap
        (fun s => if s.action == StepAction.drop then s.row else none)
      = intRangeIncl
          (-(jsMaxList (((rotationsOf p.type).getD p.rotationIndex []).map
              (fun c => c.row))
            - jsMinList (((rotationsOf p.type).getD p.rotationIndex []).map
              (fun c => c.row)) + 1) + 1)
          p.anchor.row := by
  simp only [generateSteps]
  rw [filterMap_shape]
  · rw [List.filterMap_map]
    exact filterMap_some_id _ _ (fun a ha => rfl)
  · rfl
  · rfl
  · refine List.filterMap_eq_nil_iff.mpr ?_
    intro a ha
    rw [List.eq_of_mem_replicate ha]
    rfl
  · refine List.filterMap_eq_nil_iff.mpr ?_
    intro a ha
    split at ha
    · exact absurd ha (List.not_mem_nil a)
    · rcases List.mem_map.mp ha with ⟨i, hi, hia⟩
      rw [← hia]
      rfl

theorem generateSteps_shape (p : PlacedTetromino) (gridCols gridRows : Int)
    (hrot : p.rotationIndex < (rotationsOf p.type).length)
    (hrow : 0 ≤ p.anchor.row) :
    ((generateSteps p gridCols gridRows).head?).map PlacementStep.action
        = some StepAction.spawn ∧
    ((generateSteps p gridCols gridRows).getLast?).map PlacementStep.action
        = some StepAction.lock ∧
    (1 < (rotationsOf p.type).length →
      ((generateSteps p gridCols gridRows).filter
          (fun s => s.action == StepAction.rotate)).length
        = p.rotationIndex % (rotationsOf p.type).length) ∧
    List.Chain' (fun a b => b = a + 1)
      ((generateSteps p gridCols gridRows).filterMap
        (fun s => if s.action == StepAction.drop then s.row else none)) ∧
    ((generateSteps p gridCols gridRows).filterMap
        (fun s => if s.action == StepAction.drop then s.row else none)).getLast?
      = some p.anchor.row := by
  have hlen : ((rotationsOf p.type).getD p.rotationIndex []).length = 4 :=
    rotation_mem_length p.type _ (getD_mem_of_lt _ _ _ hrot)
  have hne : ((((rotationsOf p.type).getD p.rotationIndex []).map
      (fun c => c.row))) ≠ [] := by
    intro hnil
    have hn := congrArg List.length hnil
    simp only [List.length_map, hlen] at hn
    exact absurd hn (by decide)
  have hminmax := jsMin_le_jsMax _ hne
  have hlo : (-(jsMaxList (((rotationsOf p.type).getD p.rotationIndex []).map
        (fun c => c.row))
      - jsMinList (((rotationsOf p.type).getD p.rotationIndex []).map
        (fun c => c.row)) + 1) + 1) ≤ p.anchor.row := by omega
  refine ⟨generateSteps_head p gridCols gridRows,
    generateSteps_last p gridCols gridRows, ?_, ?_, ?_⟩
  · intro hgt
    rw [generateSteps_rotateCount]
    exact (Nat.mod_eq_of_lt hrot).symm
  · rw [generateSteps_dropRows]
    exact intRangeIncl_chain _ _
  · rw [generateSteps_dropRows]
    exact intRangeIncl_getLast _ _ hlo

theorem pieceMap_lookup_self (pieces : List PlacedTetromino)
    (hnd : (pieces.map (fun p => p.id)).Nodup) (p : PlacedTetromino)
    (hp : p ∈ pieces) :
    lookupAssoc (mapFromPairs (pieces.map (fun q => (q.id, q)))) p.id = some p := by
  rw [mapFromPairs_nodup_id]
  · exact mem_lookup_nodup _ _ _ (by rw [keys_pairs_eq]; exact hnd)
      (List.mem_map.mpr ⟨p, hp, rfl⟩)
  · rw [keys_pairs_eq]
    exact hnd

/-! ## Where sequencer entries come from -/

theorem tryReorder_entries (pieces : List PlacedTetromino)
    (grid : List (List (Option PlacedTetromino))) (gridRows gridCols : Int)
    (sr : SequenceResult)
    (h : tryReorderForValidSequence pieces grid gridRows gridCols = some sr) :
    ∀ e ∈ sr.sequence, e.piece ∈ pieces ∧
      e.steps = generateSteps e.piece gridCols gridRows := by
  simp only [tryReorderForValidSequence] at h
  split at h
  · injection h with h
    subst h
    intro e he
    rcases List.mem_filterMap.mp he with ⟨ie, hie, hfe⟩
    rcases Option.map_eq_some'.mp hfe with ⟨piece, hlk, hpe⟩
    have hp := pieceMap_mem pieces ie.2 piece hlk
    rw [← hpe]
    exact ⟨hp.1, rfl⟩
  · exact Option.noConfusion h

theorem sequenceGreedy_entries (result : TileResult) (gridRows gridCols maxRow : Int)
    (pieceMap : List (String × PlacedTetromino))
    (hmap : ∀ k v, lookupAssoc pieceMap k = some v → v ∈ result.pieces) :
    ∀ (fuel : Nat) (st : GreedyState),
    (∀ e ∈ st.sequence, e.piece ∈ result.pieces ∧
      e.steps = generateSteps e.piece gridCols gridRows) →
    ∀ e ∈ (sequenceGreedy result gridRows gridCols maxRow pieceMap fuel st).sequence,
      e.piece ∈ result.pieces ∧ e.steps = generateSteps e.piece gridCols gridRows := by
  intro fuel
  induction fuel with
  | zero =>
      intro st hst e he
      simp only [sequenceGreedy] at he
      exact absurd he (List.not_mem_nil e)
  | succ fuel ih =>
      intro st hst e he
      simp only [sequenceGreedy] at he
      split at he
      · exact hst e he
      · split at he
        · split at he
          · next fb heq => exact tryReorder_entries _ _ _ _ fb heq e he
          · exact absurd he (List.not_mem_nil e)
        · next piece rest' hsort =>
            refine ih _ ?_ e he
            intro q hq
            rcases List.mem_append.mp hq with hq1 | hq1
            · exact hst q hq1
            · have hpmem : piece ∈ result.pieces := by
                have hp1 : piece ∈ stableSortBy supportedLe
                    (st.remaining.filterMap (fun pieceId =>
                      match lookupAssoc pieceMap pieceId with
                      | some piece =>
                          if isPieceSupported piece st.placedCells maxRow
                              && canDropPiece piece
                                (st.sequence.map (fun s => s.piece.id)) result.grid
                          then some piece else none
                      | none => none)) := by
                  rw [hsort]
                  exact List.mem_cons_self piece rest'
                have hp2 := mem_stableSortBy _ _ _ hp1
                rcases List.mem_filterMap.mp hp2 with ⟨pid, hpid, hf⟩
                rcases hlk : lookupAssoc pieceMap pid with _ | q2
                · rw [hlk] at hf
                  exact Option.noConfusion hf
                · rw [hlk] at hf
                  simp only at hf
                  split at hf
                  · injection hf with hf
                    rw [← hf]
                    exact hmap pid q2 hlk
                  · exact Option.noConfusion hf
              rw [List.mem_singleton] at hq1
              subst hq1
              exact ⟨hpmem, rfl⟩

theorem sequencePieces_entries (result : TileResult) :
    ∀ x ∈ (sequencePieces result).sequence, x.piece ∈ result.pieces ∧
      x.steps = generateSteps x.piece ((result.grid.headD []).length : Int)
        ((result.grid.length : Int)) := by
  intro x hx
  simp only [sequencePieces] at hx
  split at hx
  · exact absurd hx (List.not_mem_nil x)
  · exact sequenceGreedy_entries result _ _ _ _
      (fun k v hlk => (pieceMap_mem result.pieces k v hlk).1) _ _
      (fun q hq => absurd hq (List.not_mem_nil q)) x hx

/-- C7: in every successful sequencing result, every piece's step list begins
with a spawn step and ends with a lock step; its rotate-step count equals the
piece's rotation index modulo its rotation count whenever the rotation count
exceeds 1; the rows of consecutive drop steps increase by exactly 1; and the
final drop step's row equals the piece's final anchor row.  The hypotheses are
the invariants of solver output: every placed piece carries a valid rotation
index and a non-negative anchor row. -/
theorem sequencePieces_step_shape (result : TileResult) (e : SequencedPiece)
    (he : e ∈ (sequencePieces result).sequence)
    (hvalid : ∀ p ∈ result.pieces,
      p.rotationIndex < (rotationsOf p.type).length ∧ 0 ≤ p.anchor.row)
    (hs : (sequencePieces result).success = true) :
    ((e.steps.head?).map PlacementStep.action = some StepAction.spawn) ∧
    ((e.steps.getLast?).map PlacementStep.action = some StepAction.lock) ∧
    (1 < (rotationsOf e.piece.type).length →
      (e.steps.filter (fun s => s.action == StepAction.rotate)).length
        = e.piece.rotationIndex % (rotationsOf e.piece.type).length) ∧
    List.Chain' (fun a b => b = a + 1)
      (e.steps.filterMap
        (fun s => if s.action == StepAction.drop then s.row else none)) ∧
    (e.steps.filterMap
        (fun s => if s.action == StepAction.drop then s.row else none)).getLast?
      = some e.piece.anchor.row := by
  rcases sequencePieces_entries result e he with ⟨hmem, hsteps⟩
  rcases hvalid e.piece hmem with ⟨h1, h2⟩
  rw [hsteps]
  exact generateSteps_shape e.piece _ _ h1 h2

/-- C7 witness: the step-shape properties at the single sequenced piece of the
successfully sequenced 2×2 example tiling. -/
theorem sequencePieces_step_shape_witness :
    ((((sequencePieces exampleTile).sequence.headD
        ⟨examplePiece, 0, 0, []⟩).steps.head?).map PlacementStep.action
      = some StepAction.spawn) ∧
    ((((sequencePieces exampleTile).sequence.headD
        ⟨examplePiece, 0, 0, []⟩).steps.getLast?).map PlacementStep.action
      = some StepAction.lock) ∧
    (1 < (rotationsOf ((sequencePieces exampleTile).sequence.headD
        ⟨examplePiece, 0, 0, []⟩).piece.type).length →
      (((sequencePieces exampleTile).sequence.headD
          ⟨examplePiece, 0, 0, []⟩).steps.filter
        (fun s => s.action == StepAction.rotate)).length
        = ((sequencePieces exampleTile).sequence.headD
            ⟨examplePiece, 0, 0, []⟩).piece.rotationIndex
          % (rotationsOf ((sequencePieces exampleTile).sequence.headD
              ⟨examplePiece, 0, 0, []⟩).piece.type).length) ∧
    List.Chain' (fun a b => b = a + 1)
      (((sequencePieces exampleTile).sequence.headD
          ⟨examplePiece, 0, 0, []⟩).steps.filterMap
        (fun s => if s.action == StepAction.drop then s.row else none)) ∧
    ((((sequencePieces exampleTile).sequence.headD
        ⟨examplePiece, 0, 0, []⟩).steps.filterMap
        (fun s => if s.action == StepAction.drop then s.row else none)).getLast?
      = some ((sequencePieces exampleTile).sequence.headD
          ⟨examplePiece, 0, 0, []⟩).piece.anchor.row) :=
  sequencePieces_step_shape exampleTile
    ((sequencePieces exampleTile).sequence.headD ⟨examplePiece, 0, 0, []⟩)
    (by decide) (by decide) (by decide)

/-! ## Kahn loop bookkeeping -/

theorem kahnFold_deps_keys (current : String) :
    ∀ (L : List (String × List String)) (d : List (String × List String))
      (m : List (String × Int)) (q : List String),
    (∀ e ∈ L, e.1 ∈ d.map (fun x => x.1)) →
    ((L.foldl
        (fun (acc : List (String × List String) × List (String × Int) × List String) e =>
          if e.2.contains current then
            let newDeg := ((lookupAssoc acc.2.1 e.1).getD 0) - 1
            (setAssoc acc.1 e.1 (e.2.erase current),
             setAssoc acc.2.1 e.1 newDeg,
             if newDeg == 0 then acc.2.2 ++ [e.1] else acc.2.2)
          else acc)
        (d, m, q)).1).map (fun x => x.1) = d.map (fun x => x.1) := by
  intro L
  induction L with
  | nil => intro d m q hk; rfl
  | cons e L ih =>
      intro d m q hk
      simp only [List.foldl_cons]
      by_cases hc : e.2.contains current = true
      · rw [if_pos hc]
        have hsub : ∀ e2 ∈ L,
            e2.1 ∈ (setAssoc d e.1 (e.2.erase current)).map (fun x => x.1) := by
          intro e2 he2
          rw [setAssoc_keys d e.1 _ (hk e (List.mem_cons_self e L))]
          exact hk e2 (List.mem_cons_of_mem e he2)
        have h1 := ih (setAssoc d e.1 (e.2.erase current))
          (setAssoc m e.1 (((lookupAssoc m e.1).getD 0) - 1))
          (if ((((lookupAssoc m e.1).getD 0) - 1) == 0) = true then q ++ [e.1] else q)
          hsub
        rw [setAssoc_keys d e.1 _ (hk e (List.mem_cons_self e L))] at h1
        exact h1
      · rw [if_neg hc]
        exact ih d m q (fun e2 he2 => hk e2 (List.mem_cons_of_mem e he2))

theorem kahnFold_queue (current : String) :
    ∀ (L : List (String × List String)),
    (L.map (fun x => x.1)).Nodup →
    ∀ (d : List (String × List String)) (m : List (String × Int)) (q : List String),
    (L.foldl
        (fun (acc : List (String × List String) × List (String × Int) × List String) e =>
          if e.2.contains current then
            let newDeg := ((lookupAssoc acc.2.1 e.1).getD 0) - 1
            (setAssoc acc.1 e.1 (e.2.erase current),
             setAssoc acc.2.1 e.1 newDeg,
             if newDeg == 0 then acc.2.2 ++ [e.1] else acc.2.2)
          else acc)
        (d, m, q)).2.2
      = q ++ (L.filter (fun e => e.2.contains current
          && ((((lookupAssoc m e.1).getD 0) - 1) == 0))).map (fun x => x.1) := by
  intro L
  induction L with
  | nil => intro hnd d m q; simp
  | cons e L ih =>
      intro hnd d m q
      have hnd2 : (L.map (fun x => x.1)).Nodup := by
        rw [List.map_cons, List.nodup_cons] at hnd
        exact hnd.2
      have hkey : e.1 ∉ L.map (fun x => x.1) := by
        rw [List.map_cons, List.nodup_cons] at hnd
        exact hnd.1
      simp only [List.foldl_cons]
      by_cases hc : e.2.contains current = true
      · rw [if_pos hc]
        have h1 := ih hnd2 (setAssoc d e.1 (e.2.erase current))
          (setAssoc m e.1 (((lookupAssoc m e.1).getD 0) - 1))
          (if ((((lookupAssoc m e.1).getD 0) - 1) == 0) = true then q ++ [e.1] else q)
        have hflt : L.filter (fun e2 => e2.2.contains current
              && ((((lookupAssoc (setAssoc m e.1 (((lookupAssoc m e.1).getD 0) - 1))
                  e2.1).getD 0) - 1) == 0))
            = L.filter (fun e2 => e2.2.contains current
              && ((((lookupAssoc m e2.1).getD 0) - 1) == 0)) := by
          refine List.filter_congr ?_
          intro e2 he2
          have hne : ¬ (e2.1 = e.1) := by
            intro hx
            exact hkey (hx ▸ List.mem_map.mpr ⟨e2, he2, rfl⟩)
          rw [lookup_setAssoc_ne _ _ _ _ hne]
        rw [hflt] at h1
        rw [h1, List.filter_cons]
        by_cases hz : ((((lookupAssoc m e.1).getD 0) - 1) == 0) = true
        · rw [if_pos hz]
          have hpe : (e.2.contains current
              && ((((lookupAssoc m e.1).getD 0) - 1) == 0)) = true := by
            rw [hc, hz]
            rfl
          rw [if_pos hpe, List.map_cons, List.append_assoc]
          rfl
        · have hz' : ((((lookupAssoc m e.1).getD 0) - 1) == 0) = false := by
            simpa using hz
          rw [if_neg hz]
          have hpe : (e.2.contains current
              && ((((lookupAssoc m e.1).getD 0) - 1) == 0)) = false := by
            rw [hc, hz']
            rfl
          rw [if_neg (by rw [hpe]; exact Bool.false_ne_true)]
      · rw [if_neg hc]
        have hc' : e.2.contains current = false := by simpa using hc
        have hpe : (e.2.contains current
            && ((((lookupAssoc m e.1).getD 0) - 1) == 0)) = false := by
          rw [hc']
          rfl
        rw [ih hnd2 d m q, List.filter_cons,
          if_neg (by rw [hpe]; exact Bool.false_ne_true)]

theorem kahnFold_inDeg (current : String) :
    ∀ (L : List (String × List String)),
    (L.map (fun x => x.1)).Nodup →
    ∀ (d : List (String × List String)) (m : List (String × Int)) (q : List String)
      (k : String),
    lookupAssoc ((L.foldl
        (fun (acc : List (String × List String) × List (String × Int) × List String) e =>
          if e.2.contains current then
            let newDeg := ((lookupAssoc acc.2.1 e.1).getD 0) - 1
            (setAssoc acc.1 e.1 (e.2.erase current),
             setAssoc acc.2.1 e.1 newDeg,
             if newDeg == 0 then acc.2.2 ++ [e.1] else acc.2.2)
          else acc)
        (d, m, q)).2.1) k
      = if (L.any (fun e => e.1 == k && e.2.contains current)) = true
        then some (((lookupAssoc m k).getD 0) - 1)
        else lookupAssoc m k := by
  intro L
  induction L with
  | nil =>
      intro hnd d m q k
      rw [if_neg (by simp)]
      rfl
  | cons e L ih =>
      intro hnd d m q k
      have hnd2 : (L.map (fun x => x.1)).Nodup := by
        rw [List.map_cons, List.nodup_cons] at hnd
        exact hnd.2
      have hkey : e.1 ∉ L.map (fun x => x.1) := by
        rw [List.map_cons, List.nodup_cons] at hnd
        exact hnd.1
      simp only [List.foldl_cons]
      by_cases hc : e.2.contains current = true
      · rw [if_pos hc]
        have h1 := ih hnd2 (setAssoc d e.1 (e.2.erase current))
          (setAssoc m e.1 (((lookupAssoc m e.1).getD 0) - 1))
          (if ((((lookupAssoc m e.1).getD 0) - 1) == 0) = true then q ++ [e.1] else q) k
        by_cases hek : e.1 = k
        · subst hek
          have hLany : (L.any (fun e2 => e2.1 == e.1 && e2.2.contains current))
              = false := by
            rw [List.any_eq_false]
            intro e2 he2 hp2
            simp only [Bool.and_eq_true] at hp2
            exact hkey ((beq_iff_eq.mp hp2.1) ▸ List.mem_map.mpr ⟨e2, he2, rfl⟩)
          rw [hLany] at h1
          rw [if_neg Bool.false_ne_true] at h1
          rw [lookup_setAssoc_self m e.1 _] at h1
          rw [h1]
          have hany : ((e :: L).any (fun e2 => e2.1 == e.1 && e2.2.contains current))
              = true := by
            rw [List.any_cons, beq_self_eq_true, hc]
            rfl
          rw [if_pos hany]
        · have hk2 : ¬ (k = e.1) := fun hx => hek hx.symm
          have hki := lookup_setAssoc_ne m e.1 k (((lookupAssoc m e.1).getD 0) - 1) hk2
          rw [hki] at h1
          rw [h1, List.any_cons]
          have hbeq : (e.1 == k) = false := by
            have hne : ¬ ((e.1 == k) = true) := fun hp => hek (beq_iff_eq.mp hp)
            simpa using hne
          rw [hbeq, Bool.false_and, Bool.false_or]
      · rw [if_neg hc]
        have h1 := ih hnd2 d m q k
        rw [h1, List.any_cons]
        have hc' : e.2.contains current = false := by simpa using hc
        rw [hc', Bool.and_false, Bool.false_or]

theorem kahnLoop_nodup_subset (pieceMap : List (String × PlacedTetromino))
    (ids : List String) :
    ∀ (fuel : Nat) (st : KahnState),
    (st.deps.map (fun x => x.1)).Nodup →
    (∀ e ∈ st.deps, e.1 ∈ ids) →
    ((st.sortedIds ++ st.queue).Nodup) →
    (∀ k ∈ st.sortedIds ++ st.queue, k ∈ ids) →
    (∀ k ∈ ids,
      (k ∈ st.sortedIds ++ st.queue → ((lookupAssoc st.inDeg k).getD 0) ≤ 0) ∧
      (¬ (k ∈ st.sortedIds ++ st.queue) → 1 ≤ ((lookupAssoc st.inDeg k).getD 0))) →
    (kahnLoop pieceMap fuel st).Nodup
      ∧ ∀ k ∈ kahnLoop pieceMap fuel st, k ∈ ids := by
  intro fuel
  induction fuel with
  | zero =>
      intro st h1 h2 h3 h4 h5
      simp only [kahnLoop]
      exact ⟨(List.nodup_append.mp h3).1,
        fun k hk => h4 k (List.mem_append.mpr (Or.inl hk))⟩
  | succ fuel ih =>
      intro st h1 h2 h3 h4 h5
      rcases hq : stableSortBy (queueLe pieceMap) st.queue with _ | ⟨current, rest⟩
      · simp only [kahnLoop, hq]
        exact ⟨(List.nodup_append.mp h3).1,
          fun k hk => h4 k (List.mem_append.mpr (Or.inl hk))⟩
      · have hperm : (current :: rest).Perm st.queue := by
          rw [← hq]
          exact stableSortBy_perm _ _
        have hcur : current ∈ st.queue := hperm.mem_iff.mp (List.mem_cons_self _ _)
        have hrest : ∀ k ∈ rest, k ∈ st.queue :=
          fun k hk => hperm.mem_iff.mp (List.mem_cons_of_mem _ hk)
        have hnd3 : (st.sortedIds ++ (current :: rest)).Nodup :=
          (List.Perm.nodup_iff (List.Perm.append_left st.sortedIds hperm)).mpr h3
        have hkeys := kahnFold_deps_keys current st.deps st.deps st.inDeg []
          (fun e he => List.mem_map.mpr ⟨e, he, rfl⟩)
        have hqfact := kahnFold_queue current st.deps h1 st.deps st.inDeg []
        have hdeg := kahnFold_inDeg current st.deps h1 st.deps st.inDeg []
        rw [List.nil_append] at hqfact
        have hNQ : ∀ k ∈ (st.deps.filter (fun e => e.2.contains current
              && ((((lookupAssoc st.inDeg e.1).getD 0) - 1) == 0))).map (fun x => x.1),
            k ∈ ids ∧ ((lookupAssoc st.inDeg k).getD 0) = 1
              ∧ ¬ (k ∈ st.sortedIds ++ st.queue) := by
          intro k hk
          rcases List.mem_map.mp hk with ⟨e, he, hke⟩
          have hef := List.mem_filter.mp he
          have hco := hef.2
          simp only [Bool.and_eq_true] at hco
          have hdege : ((lookupAssoc st.inDeg e.1).getD 0) - 1 = 0 :=
            beq_iff_eq.mp hco.2
          have hkid : k ∈ ids := by
            rw [← hke]
            exact h2 e hef.1
          have hdegk : ((lookupAssoc st.inDeg k).getD 0) = 1 := by
            rw [← hke]
            omega
          refine ⟨hkid, hdegk, ?_⟩
          intro hmem
          have hle := (h5 k hkid).1 hmem
          omega
        have hndQ : ((st.deps.filter (fun e => e.2.contains current
              && ((((lookupAssoc st.inDeg e.1).getD 0) - 1) == 0))).map
                (fun x => x.1)).Nodup :=
          List.Nodup.sublist ((List.filter_sublist st.deps).map (fun x => x.1)) h1
        have hgoal : ∀ F : List (String × List String) × List (String × Int) × List String,
            (st.deps.foldl
              (fun (acc : List (String × List String) × List (String × Int) × List String) e =>
                if e.2.contains current then
                  let newDeg := ((lookupAssoc acc.2.1 e.1).getD 0) - 1
                  (setAssoc acc.1 e.1 (e.2.erase current),
                   setAssoc acc.2.1 e.1 newDeg,
                   if newDeg == 0 then acc.2.2 ++ [e.1] else acc.2.2)
                else acc)
              (st.deps, st.inDeg, ([] : List String))) = F →
            ((kahnLoop pieceMap fuel
                (⟨F.1, F.2.1, rest ++ F.2.2, st.sortedIds ++ [current]⟩ : KahnState)).Nodup
              ∧ ∀ k ∈ kahnLoop pieceMap fuel
                (⟨F.1, F.2.1, rest ++ F.2.2, st.sortedIds ++ [current]⟩ : KahnState),
                k ∈ ids) := by
          intro F hF
          rw [hF] at hkeys hqfact hdeg
          refine ih _ ?_ ?_ ?_ ?_ ?_
          · show (F.1.map (fun x => x.1)).Nodup
            rw [hkeys]
            exact h1
          · show ∀ e ∈ F.1, e.1 ∈ ids
            intro e he
            have hkm : e.1 ∈ (st.deps.map (fun x => x.1)) := by
              rw [← hkeys]
              exact List.mem_map.mpr ⟨e, he, rfl⟩
            rcases List.mem_map.mp hkm with ⟨e2, he2, hke⟩
            rw [← hke]
            exact h2 e2 he2
          · show ((st.sortedIds ++ [current]) ++ (rest ++ F.2.2)).Nodup
            rw [hqfact, ← List.append_assoc,
              List.append_assoc st.sortedIds [current] rest, List.singleton_append]
            refine List.nodup_append.mpr ⟨hnd3, hndQ, ?_⟩
            intro a ha haQ
            rcases hNQ a haQ with ⟨haid, hadeg, hanotin⟩
            rcases List.mem_append.mp ha with h | h
            · exact hanotin (List.mem_append.mpr (Or.inl h))
            · exact hanotin (List.mem_append.mpr (Or.inr (hperm.mem_iff.mp h)))
          · show ∀ k ∈ (st.sortedIds ++ [current]) ++ (rest ++ F.2.2), k ∈ ids
            intro k hk
            rw [hqfact] at hk
            rcases List.mem_append.mp hk with h | h
            · rcases List.mem_append.mp h with h2 | h2
              · exact h4 k (List.mem_append.mpr (Or.inl h2))
              · rw [List.mem_singleton] at h2
                subst h2
                exact h4 _ (List.mem_append.mpr (Or.inr hcur))
            · rcases List.mem_append.mp h with h2 | h2
              · exact h4 k (List.mem_append.mpr (Or.inr (hrest k h2)))
              · exact (hNQ k h2).1
          · show ∀ k ∈ ids,
              (k ∈ (st.sortedIds ++ [current]) ++ (rest ++ F.2.2) →
                ((lookupAssoc F.2.1 k).getD 0) ≤ 0) ∧
              (¬ (k ∈ (st.sortedIds ++ [current]) ++ (rest ++ F.2.2)) →
                1 ≤ ((lookupAssoc F.2.1 k).getD 0))
            intro k hkid
            have hdg := hdeg k
            by_cases hmem : k ∈ st.sortedIds ++ st.queue
            · have hold := (h5 k hkid).1 hmem
              have hdg2 : ((lookupAssoc F.2.1 k).getD 0) ≤ 0 := by
                rw [hdg]
                split
                · simp only [Option.getD_some]
                  omega
                · exact hold
              constructor
              · intro _
                exact hdg2
              · intro hnm
                exfalso
                apply hnm
                rcases List.mem_append.mp hmem with h | h
                · exact List.mem_append.mpr (Or.inl (List.mem_append.mpr (Or.inl h)))
                · have hkcr := hperm.mem_iff.mpr h
                  rcases List.mem_cons.mp hkcr with h2 | h2
                  · subst h2
                    exact List.mem_append.mpr (Or.inl (List.mem_append.mpr
                      (Or.inr (List.mem_singleton.mpr rfl))))
                  · exact List.mem_append.mpr (Or.inr (List.mem_append.mpr (Or.inl h2)))
            · have hold := (h5 k hkid).2 hmem
              by_cases hb : (st.deps.any (fun e => e.1 == k && e.2.contains current))
                  = true
              · have hdg2 : lookupAssoc F.2.1 k
                    = some (((lookupAssoc st.inDeg k).getD 0) - 1) := by
                  rw [hdg, if_pos hb]
                by_cases hz : ((lookupAssoc st.inDeg k).getD 0) - 1 = 0
                · have hkQ : k ∈ (st.deps.filter (fun e => e.2.contains current
                      && ((((lookupAssoc st.inDeg e.1).getD 0) - 1) == 0))).map
                        (fun x => x.1) := by
                    rcases List.any_eq_true.mp hb with ⟨e, he, hpe⟩
                    simp only [Bool.and_eq_true] at hpe
                    have hek : e.1 = k := beq_iff_eq.mp hpe.1
                    refine List.mem_map.mpr ⟨e, ?_, hek⟩
                    refine List.mem_filter.mpr ⟨he, ?_⟩
                    rw [hpe.2, hek]
                    simp [hz]
                  constructor
                  · intro _
                    rw [hdg2]
                    simp only [Option.getD_some]
                    omega
                  · intro hnm
                    exfalso
                    apply hnm
                    rw [hqfact]
                    exact List.mem_append.mpr (Or.inr (List.mem_append.mpr (Or.inr hkQ)))
                · have hge : 1 ≤ ((lookupAssoc F.2.1 k).getD 0) := by
                    rw [hdg2]
                    simp only [Option.getD_some]
                    omega
                  constructor
                  · intro hm2
                    exfalso
                    rw [hqfact] at hm2
                    rcases List.mem_append.mp hm2 with h | h
                    · rcases List.mem_append.mp h with h2 | h2
                      · exact hmem (List.mem_append.mpr (Or.inl h2))
                      · rw [List.mem_singleton] at h2
                        subst h2
                        exact hmem (List.mem_append.mpr (Or.inr hcur))
                    · rcases List.mem_append.mp h with h2 | h2
                      · exact hmem (List.mem_append.mpr (Or.inr (hrest k h2)))
                      · rcases hNQ k h2 with ⟨_, hdeg1, _⟩
                        omega
                  · intro _
                    exact hge
              · have hb2 : (st.deps.any (fun e => e.1 == k && e.2.contains current))
                    = false := by
                  simpa using hb
                have hdg2 : lookupAssoc F.2.1 k = lookupAssoc st.inDeg k := by
                  rw [hdg, if_neg (by rw [hb2]; exact Bool.false_ne_true)]
                constructor
                · intro hm2
                  exfalso
                  rw [hqfact] at hm2
                  rcases List.mem_append.mp hm2 with h | h
                  · rcases List.mem_append.mp h with h2 | h2
                    · exact hmem (List.mem_append.mpr (Or.inl h2))
                    · rw [List.mem_singleton] at h2
                      subst h2
                      exact hmem (List.mem_append.mpr (Or.inr hcur))
                  · rcases List.mem_append.mp h with h2 | h2
                    · exact hmem (List.mem_append.mpr (Or.inr (hrest k h2)))
                    · rcases List.mem_map.mp h2 with ⟨e, he, hek⟩
                      have hef := List.mem_filter.mp he
                      have hco := hef.2
                      simp only [Bool.and_eq_true] at hco
                      have hone : (st.deps.any
                          (fun e => e.1 == k && e.2.contains current)) = true := by
                        refine List.any_eq_true.mpr ⟨e, hef.1, ?_⟩
                        rw [beq_iff_eq.mpr hek, hco.1]
                        rfl
                      rw [hb2] at hone
                      exact Bool.noConfusion hone
                · intro _
                  rw [hdg2]
                  exact hold
        have hres := hgoal _ rfl
        simp only [kahnLoop, hq]
        exact hres

theorem foldl_keys_eq (ids : List κ) (f : List (κ × α) → β → List (κ × α)) :
    ∀ (L : List β),
    (∀ acc, ∀ b ∈ L, acc.map (fun e => e.1) = ids →
      (f acc b).map (fun e => e.1) = ids) →
    ∀ acc, acc.map (fun e => e.1) = ids →
      (L.foldl f acc).map (fun e => e.1) = ids := by
  intro L
  induction L with
  | nil => intro hf acc h; exact h
  | cons b L ih =>
      intro hf acc h
      rw [List.foldl_cons]
      exact ih (fun acc2 b2 hb2 hacc2 => hf acc2 b2 (List.mem_cons_of_mem b hb2) hacc2)
        (f acc b) (hf acc b (List.mem_cons_self b L) h)

theorem buildDeps_keys (pieces : List PlacedTetromino)
    (grid : List (List (Option PlacedTetromino)))
    (hnd : (pieces.map (fun p => p.id)).Nodup) :
    (buildDeps pieces grid).map (fun e => e.1) = pieces.map (fun p => p.id) := by
  unfold buildDeps
  have hkeys0 : ((pieces.map (fun p => (p.id, ([] : List String)))).map (fun e => e.1))
      = pieces.map (fun p => p.id) := by
    rw [List.map_map]
    rfl
  have hinit : (mapFromPairs (pieces.map (fun p => (p.id, ([] : List String))))).map
      (fun e => e.1) = pieces.map (fun p => p.id) := by
    rw [mapFromPairs_nodup_id]
    · exact hkeys0
    · rw [hkeys0]
      exact hnd
  refine foldl_keys_eq _ _ _ ?_ _ hinit
  intro dm piece hpiece hdm
  refine foldl_keys_eq _ _ _ ?_ _ hdm
  intro dm2 cell hcell hdm2
  refine foldl_keys_eq _ _ _ ?_ _ hdm2
  intro dm3 row hrow hdm3
  rcases hga : gridAt grid row cell.col with _ | qq
  · simp only [hga]
    exact hdm3
  · simp only [hga]
    split
    · split
      · exact hdm3
      · rw [setAssoc_keys]
        · exact hdm3
        · rw [hdm3]
          exact List.mem_map.mpr ⟨piece, hpiece, rfl⟩
    · exact hdm3

theorem kahn_init_dichotomy (ids : List String) (inDeg0 : List (String × Int))
    (hkeys : inDeg0.map (fun e => e.1) = ids)
    (hnd : ids.Nodup)
    (hnn : ∀ e ∈ inDeg0, 0 ≤ e.2) :
    (((inDeg0.filter (fun e => e.2 == 0)).map (fun e => e.1)).Nodup) ∧
    (∀ k ∈ (inDeg0.filter (fun e => e.2 == 0)).map (fun e => e.1), k ∈ ids) ∧
    (∀ k ∈ ids,
      (k ∈ (inDeg0.filter (fun e => e.2 == 0)).map (fun e => e.1) →
        ((lookupAssoc inDeg0 k).getD 0) ≤ 0) ∧
      (¬ (k ∈ (inDeg0.filter (fun e => e.2 == 0)).map (fun e => e.1)) →
        1 ≤ ((lookupAssoc inDeg0 k).getD 0))) := by
  have hndk : (inDeg0.map (fun e => e.1)).Nodup := by
    rw [hkeys]
    exact hnd
  refine ⟨List.Nodup.sublist ((List.filter_sublist inDeg0).map (fun e => e.1)) hndk,
    ?_, ?_⟩
  · intro k hk
    rcases List.mem_map.mp hk with ⟨e, he, hke⟩
    have hmm : e.1 ∈ inDeg0.map (fun e => e.1) :=
      List.mem_map.mpr ⟨e, (List.mem_filter.mp he).1, rfl⟩
    rw [hkeys] at hmm
    rw [← hke]
    exact hmm
  · intro k hkid
    have hkid2 : k ∈ inDeg0.map (fun e => e.1) := by
      rw [hkeys]
      exact hkid
    rcases List.mem_map.mp hkid2 with ⟨e, he, hke⟩
    have hlk : lookupAssoc inDeg0 k = some e.2 := by
      rw [← hke]
      exact mem_lookup_nodup _ _ _ hndk he
    constructor
    · intro hkq
      rcases List.mem_map.mp hkq with ⟨e2, he2, hke2⟩
      have he2f := List.mem_filter.mp he2
      have he2z : e2.2 = 0 := beq_iff_eq.mp he2f.2
      have hlk2 : lookupAssoc inDeg0 k = some e2.2 := by
        rw [← hke2]
        exact mem_lookup_nodup _ _ _ hndk he2f.1
      rw [hlk2, he2z]
      simp
    · intro hnq
      have hez : ¬ (e.2 = 0) := by
        intro hz
        apply hnq
        refine List.mem_map.mpr ⟨e, ?_, hke⟩
        exact List.mem_filter.mpr ⟨he, beq_iff_eq.mpr hz⟩
      have hnn2 := hnn e he
      rw [hlk]
      simp only [Option.getD_some]
      omega

theorem seq_spec (pieceMap : List (String × PlacedTetromino)) (gridRows gridCols : Int) :
    ∀ (l : List String) (n : Nat),
    (∀ k ∈ l, ∃ p, lookupAssoc pieceMap k = some p ∧ p.id = k) →
    (((l.enumFrom n).filterMap (fun ie =>
        (lookupAssoc pieceMap ie.2).map (fun piece =>
          ({ piece := piece, order := ie.1, dropColumn := piece.anchor.col, steps := generateSteps piece gridCols gridRows } : SequencedPiece)))).map
        (fun e => e.piece.id) = l) ∧
    (((l.enumFrom n).filterMap (fun ie =>
        (lookupAssoc pieceMap ie.2).map (fun piece =>
          ({ piece := piece, order := ie.1, dropColumn := piece.anchor.col, steps := generateSteps piece gridCols gridRows } : SequencedPiece)))).map
        (fun e => e.order) = List.range' n l.length) ∧
    (∀ e ∈ ((l.enumFrom n).filterMap (fun ie =>
        (lookupAssoc pieceMap ie.2).map (fun piece =>
          ({ piece := piece, order := ie.1, dropColumn := piece.anchor.col, steps := generateSteps piece gridCols gridRows } : SequencedPiece)))),
      lookupAssoc pieceMap e.piece.id = some e.piece) := by
  intro l
  induction l with
  | nil =>
      intro n hl
      exact ⟨rfl, rfl, fun e he => absurd he (List.not_mem_nil e)⟩
  | cons k l ih =>
      intro n hl
      rcases hl k (List.mem_cons_self k l) with ⟨p, hp, hpid⟩
      have hrec := ih (n + 1) (fun k2 hk2 => hl k2 (List.mem_cons_of_mem k hk2))
      have hfa : (lookupAssoc pieceMap k).map (fun piece =>
          ({ piece := piece, order := n, dropColumn := piece.anchor.col, steps := generateSteps piece gridCols gridRows } : SequencedPiece))
          = some { piece := p, order := n, dropColumn := p.anchor.col, steps := generateSteps p gridCols gridRows } := by
        rw [hp]
        rfl
      refine ⟨?_, ?_, ?_⟩
      · simp only [List.enumFrom_cons, List.filterMap_cons, hfa, List.map_cons]
        rw [hpid, hrec.1]
      · simp only [List.enumFrom_cons, List.filterMap_cons, hfa, List.map_cons]
        rw [hrec.2.1, List.length_cons]
        rfl
      · intro e he
        simp only [List.enumFrom_cons, List.filterMap_cons, hfa] at he
        rcases List.mem_cons.mp he with he1 | he1
        · subst he1
          show lookupAssoc pieceMap p.id = some p
          rw [hpid]
          exact hp
        · exact hrec.2.2 e he1

theorem tryReorder_perm (pieces : List PlacedTetromino)
    (grid : List (List (Option PlacedTetromino))) (gridRows gridCols : Int)
    (hnd : (pieces.map (fun p => p.id)).Nodup) (sr : SequenceResult)
    (h : tryReorderForValidSequence pieces grid gridRows gridCols = some sr) :
    (sr.sequence.map (fun e => e.piece.id)).Perm (pieces.map (fun p => p.id)) ∧
    sr.sequence.map (fun e => e.order) = List.range sr.sequence.length ∧
    ∀ e ∈ sr.sequence,
      lookupAssoc (mapFromPairs (pieces.map (fun p => (p.id, p)))) e.piece.id
        = some e.piece := by
  simp only [tryReorderForValidSequence] at h
  split at h
  · next hlen =>
      injection h with h
      subst h
      have hkeys0 : ((pieces.map (fun p => (p.id,
          (((lookupAssoc (buildDeps pieces grid) p.id).getD []).length : Int)))).map
          (fun e => e.1)) = pieces.map (fun p => p.id) := by
        rw [List.map_map]
        rfl
      have hIn : mapFromPairs (pieces.map (fun p => (p.id,
          (((lookupAssoc (buildDeps pieces grid) p.id).getD []).length : Int))))
          = pieces.map (fun p => (p.id,
            (((lookupAssoc (buildDeps pieces grid) p.id).getD []).length : Int))) := by
        refine mapFromPairs_nodup_id _ ?_
        rw [hkeys0]
        exact hnd
      have hInKeys : ((mapFromPairs (pieces.map (fun p => (p.id,
          (((lookupAssoc (buildDeps pieces grid) p.id).getD []).length : Int))))).map
          (fun e => e.1)) = pieces.map (fun p => p.id) := by
        rw [hIn]
        exact hkeys0
      have hInNN : ∀ e ∈ mapFromPairs (pieces.map (fun p => (p.id,
          (((lookupAssoc (buildDeps pieces grid) p.id).getD []).length : Int)))),
          0 ≤ e.2 := by
        intro e he
        rw [hIn] at he
        rcases List.mem_map.mp he with ⟨p, hp, hpe⟩
        rw [← hpe]
        exact Int.natCast_nonneg _
      have hinit := kahn_init_dichotomy (pieces.map (fun p => p.id))
        (mapFromPairs (pieces.map (fun p => (p.id,
          (((lookupAssoc (buildDeps pieces grid) p.id).getD []).length : Int)))))
        hInKeys hnd hInNN
      have hdk : ((buildDeps pieces grid).map (fun e => e.1)).Nodup := by
        rw [buildDeps_keys pieces grid hnd]
        exact hnd
      have hds : ∀ e ∈ buildDeps pieces grid, e.1 ∈ pieces.map (fun p => p.id) := by
        intro e he
        have hm : e.1 ∈ (buildDeps pieces grid).map (fun e => e.1) :=
          List.mem_map.mpr ⟨e, he, rfl⟩
        rw [buildDeps_keys pieces grid hnd] at hm
        exact hm
      have h3x : ((([] : List String)) ++ ((mapFromPairs (pieces.map (fun p => (p.id,
          (((lookupAssoc (buildDeps pieces grid) p.id).getD []).length : Int))))).filter
          (fun e => e.2 == 0)).map (fun e => e.1)).Nodup := by
        rw [List.nil_append]
        exact hinit.1
      have h4x : ∀ k ∈ (([] : List String)) ++ ((mapFromPairs (pieces.map (fun p => (p.id,
          (((lookupAssoc (buildDeps pieces grid) p.id).getD []).length : Int))))).filter
          (fun e => e.2 == 0)).map (fun e => e.1), k ∈ pieces.map (fun p => p.id) := by
        intro k hk
        rw [List.nil_append] at hk
        exact hinit.2.1 k hk
      have h5x : ∀ k ∈ pieces.map (fun p => p.id),
          (k ∈ (([] : List String)) ++ ((mapFromPairs (pieces.map (fun p => (p.id,
              (((lookupAssoc (buildDeps pieces grid) p.id).getD []).length : Int))))).filter
              (fun e => e.2 == 0)).map (fun e => e.1) →
            ((lookupAssoc (mapFromPairs (pieces.map (fun p => (p.id,
              (((lookupAssoc (buildDeps pieces grid) p.id).getD []).length : Int))))) k).getD 0)
              ≤ 0) ∧
          (¬ (k ∈ (([] : List String)) ++ ((mapFromPairs (pieces.map (fun p => (p.id,
              (((lookupAssoc (buildDeps pieces grid) p.id).getD []).length : Int))))).filter
              (fun e => e.2 == 0)).map (fun e => e.1)) →
            1 ≤ ((lookupAssoc (mapFromPairs (pieces.map (fun p => (p.id,
              (((lookupAssoc (buildDeps pieces grid) p.id).getD []).length : Int))))) k).getD 0)) := by
        intro k hkid
        constructor
        · intro hm
          rw [List.nil_append] at hm
          exact (hinit.2.2 k hkid).1 hm
        · intro hm
          refine (hinit.2.2 k hkid).2 ?_
          intro hx
          exact hm (by rw [List.nil_append]; exact hx)
      have hK : (kahnLoop (mapFromPairs (pieces.map (fun p => (p.id, p))))
          (2 * pieces.length + 1)
          (⟨buildDeps pieces grid,
            mapFromPairs (pieces.map (fun p => (p.id,
              (((lookupAssoc (buildDeps pieces grid) p.id).getD []).length : Int)))),
            ((mapFromPairs (pieces.map (fun p => (p.id,
              (((lookupAssoc (buildDeps pieces grid) p.id).getD []).length : Int))))).filter
              (fun e => e.2 == 0)).map (fun e => e.1),
            []⟩ : KahnState)).Nodup
          ∧ ∀ k ∈ kahnLoop (mapFromPairs (pieces.map (fun p => (p.id, p))))
            (2 * pieces.length + 1)
            (⟨buildDeps pieces grid,
              mapFromPairs (pieces.map (fun p => (p.id,
                (((lookupAssoc (buildDeps pieces grid) p.id).getD []).length : Int)))),
              ((mapFromPairs (pieces.map (fun p => (p.id,
                (((lookupAssoc (buildDeps pieces grid) p.id).getD []).length : Int))))).filter
                (fun e => e.2 == 0)).map (fun e => e.1),
              []⟩ : KahnState), k ∈ pieces.map (fun p => p.id) :=
        kahnLoop_nodup_subset _ _ _ _ hdk hds h3x h4x h5x
      have hlen2 : (kahnLoop (mapFromPairs (pieces.map (fun p => (p.id, p))))
          (2 * pieces.length + 1)
          (⟨buildDeps pieces grid,
            mapFromPairs (pieces.map (fun p => (p.id,
              (((lookupAssoc (buildDeps pieces grid) p.id).getD []).length : Int)))),
            ((mapFromPairs (pieces.map (fun p => (p.id,
              (((lookupAssoc (buildDeps pieces grid) p.id).getD []).length : Int))))).filter
              (fun e => e.2 == 0)).map (fun e => e.1),
            []⟩ : KahnState)).length = pieces.length := hlen
      have hKperm : (kahnLoop (mapFromPairs (pieces.map (fun p => (p.id, p))))
          (2 * pieces.length + 1)
          (⟨buildDeps pieces grid,
            mapFromPairs (pieces.map (fun p => (p.id,
              (((lookupAssoc (buildDeps pieces grid) p.id).getD []).length : Int)))),
            ((mapFromPairs (pieces.map (fun p => (p.id,
              (((lookupAssoc (buildDeps pieces grid) p.id).getD []).length : Int))))).filter
              (fun e => e.2 == 0)).map (fun e => e.1),
            []⟩ : KahnState)).Perm (pieces.map (fun p => p.id)) := by
        refine List.Subperm.perm_of_length_le
          (List.subperm_of_subset hK.1 (fun k hk => hK.2 k hk)) ?_
        rw [List.length_map, hlen2]
      have hlkall : ∀ k ∈ kahnLoop (mapFromPairs (pieces.map (fun p => (p.id, p))))
          (2 * pieces.length + 1)
          (⟨buildDeps pieces grid,
            mapFromPairs (pieces.map (fun p => (p.id,
              (((lookupAssoc (buildDeps pieces grid) p.id).getD []).length : Int)))),
            ((mapFromPairs (pieces.map (fun p => (p.id,
              (((lookupAssoc (buildDeps pieces grid) p.id).getD []).length : Int))))).filter
              (fun e => e.2 == 0)).map (fun e => e.1),
            []⟩ : KahnState),
          ∃ p, lookupAssoc (mapFromPairs (pieces.map (fun p => (p.id, p)))) k = some p
            ∧ p.id = k := by
        intro k hk
        have hkid := hK.2 k hk
        rcases List.mem_map.mp hkid with ⟨p, hp, hpk⟩
        refine ⟨p, ?_, hpk⟩
        rw [← hpk]
        exact pieceMap_lookup_self pieces hnd p hp
      have hseq := seq_spec (mapFromPairs (pieces.map (fun p => (p.id, p))))
        gridRows gridCols
        (kahnLoop (mapFromPairs (pieces.map (fun p => (p.id, p))))
          (2 * pieces.length + 1)
          (⟨buildDeps pieces grid,
            mapFromPairs (pieces.map (fun p => (p.id,
              (((lookupAssoc (buildDeps pieces grid) p.id).getD []).length : Int)))),
            ((mapFromPairs (pieces.map (fun p => (p.id,
              (((lookupAssoc (buildDeps pieces grid) p.id).getD []).length : Int))))).filter
              (fun e => e.2 == 0)).map (fun e => e.1),
            []⟩ : KahnState))
        0 hlkall
      refine ⟨?_, ?_, ?_⟩
      · exact hseq.1.symm ▸ hKperm
      · have hlen3 := congrArg List.length hseq.1
        rw [List.length_map] at hlen3
        have hx := hseq.2.1
        rw [← hlen3, ← List.range_eq_range'] at hx
        exact hx
      · exact hseq.2.2
  · exact Option.noConfusion h

theorem greedy_step_invariants (ids : List String)
    (pieceMap : List (String × PlacedTetromino))
    (seq : List SequencedPiece) (remaining : List String) (entry : SequencedPiece)
    (hperm : (seq.map (fun e => e.piece.id) ++ remaining).Perm ids)
    (hord : seq.map (fun e => e.order) = List.range seq.length)
    (hlk : ∀ e ∈ seq, lookupAssoc pieceMap e.piece.id = some e.piece)
    (hmem : entry.piece.id ∈ remaining)
    (horder : entry.order = seq.length)
    (hlke : lookupAssoc pieceMap entry.piece.id = some entry.piece) :
    (((seq ++ [entry]).map (fun e => e.piece.id)
        ++ remaining.erase entry.piece.id).Perm ids) ∧
    (seq ++ [entry]).map (fun e => e.order) = List.range (seq ++ [entry]).length ∧
    ∀ e ∈ seq ++ [entry], lookupAssoc pieceMap e.piece.id = some e.piece := by
  refine ⟨?_, ?_, ?_⟩
  · refine List.Perm.trans ?_ hperm
    rw [List.map_append, List.append_assoc, List.map_singleton]
    exact List.Perm.append_left _ (List.perm_cons_erase hmem).symm
  · rw [List.map_append, List.map_singleton, hord, horder, List.length_append,
      List.length_singleton, List.range_succ]
  · intro e he
    rcases List.mem_append.mp he with h | h
    · exact hlk e h
    · rw [List.mem_singleton] at h
      subst h
      exact hlke

theorem sequenceGreedy_perm (result : TileResult) (gridRows gridCols maxRow : Int)
    (hnd : (result.pieces.map (fun p => p.id)).Nodup) :
    ∀ (fuel : Nat) (st : GreedyState),
    ((st.sequence.map (fun e => e.piece.id)) ++ st.remaining).Perm
      (result.pieces.map (fun p => p.id)) →
    st.sequence.map (fun e => e.order) = List.range st.sequence.length →
    (∀ e ∈ st.sequence,
      lookupAssoc (mapFromPairs (result.pieces.map (fun p => (p.id, p)))) e.piece.id
        = some e.piece) →
    ∀ sr, sequenceGreedy result gridRows gridCols maxRow
        (mapFromPairs (result.pieces.map (fun p => (p.id, p)))) fuel st = sr →
    sr.success = true →
    ((sr.sequence.map (fun e => e.piece.id)).Perm
        (result.pieces.map (fun p => p.id)) ∧
     sr.sequence.map (fun e => e.order) = List.range sr.sequence.length ∧
     ∀ e ∈ sr.sequence,
       lookupAssoc (mapFromPairs (result.pieces.map (fun p => (p.id, p)))) e.piece.id
         = some e.piece) := by
  intro fuel
  induction fuel with
  | zero =>
      intro st hperm hord hlk sr hsr hsucc
      rw [← hsr] at hsucc
      simp only [sequenceGreedy] at hsucc
      exact absurd hsucc (by simp)
  | succ fuel ih =>
      intro st hperm hord hlk sr hsr hsucc
      rw [← hsr] at hsucc ⊢
      clear hsr
      simp only [sequenceGreedy] at hsucc ⊢
      by_cases hre : st.remaining.isEmpty = true
      · rw [if_pos hre] at hsucc ⊢
        have hrem : st.remaining = [] := List.isEmpty_iff.mp hre
        rw [hrem, List.append_nil] at hperm
        exact ⟨hperm, hord, hlk⟩
      · rw [if_neg hre] at hsucc ⊢
        rcases hsort : stableSortBy supportedLe (st.remaining.filterMap (fun pieceId =>
            match lookupAssoc (mapFromPairs (result.pieces.map (fun p => (p.id, p))))
                pieceId with
            | some piece =>
                if isPieceSupported piece st.placedCells maxRow
                    && canDropPiece piece
                      (st.sequence.map (fun s => s.piece.id)) result.grid
                then some piece else none
            | none => none)) with _ | ⟨piece, rest2⟩
        · simp only [hsort] at hsucc ⊢
          rcases hfb : tryReorderForValidSequence result.pieces result.grid
              gridRows gridCols with _ | fb
          · simp only [hfb] at hsucc ⊢
            exact absurd hsucc (by simp)
          · simp only [hfb] at hsucc ⊢
            exact tryReorder_perm result.pieces result.grid gridRows gridCols hnd fb hfb
        · simp only [hsort] at hsucc ⊢
          have hp1 : piece ∈ stableSortBy supportedLe (st.remaining.filterMap
              (fun pieceId =>
              match lookupAssoc (mapFromPairs (result.pieces.map (fun p => (p.id, p))))
                  pieceId with
              | some piece =>
                  if isPieceSupported piece st.placedCells maxRow
                      && canDropPiece piece
                        (st.sequence.map (fun s => s.piece.id)) result.grid
                  then some piece else none
              | none => none)) := by
            rw [hsort]
            exact List.mem_cons_self piece rest2
          have hp2 := mem_stableSortBy _ _ _ hp1
          rcases List.mem_filterMap.mp hp2 with ⟨pid, hpid, hf⟩
          rcases hlkp : lookupAssoc (mapFromPairs
              (result.pieces.map (fun p => (p.id, p)))) pid with _ | q2
          · rw [hlkp] at hf
            exact Option.noConfusion hf
          · simp only [hlkp] at hf
            split at hf
            · injection hf with hf2
              subst q2
              have hpm := pieceMap_mem result.pieces pid piece hlkp
              have hmem_rem : piece.id ∈ st.remaining := by
                rw [hpm.2]
                exact hpid
              have hlkpe : lookupAssoc (mapFromPairs
                  (result.pieces.map (fun p => (p.id, p)))) piece.id = some piece := by
                rw [hpm.2]
                exact hlkp
              have hstep := greedy_step_invariants (result.pieces.map (fun p => p.id))
                (mapFromPairs (result.pieces.map (fun p => (p.id, p))))
                st.sequence st.remaining
                ({ piece := piece, order := st.sequence.length, dropColumn := piece.anchor.col, steps := generateSteps piece gridCols gridRows } : SequencedPiece)
                hperm hord hlk hmem_rem rfl hlkpe
              refine ih _ ?_ ?_ ?_ _ rfl hsucc
              · exact hstep.1
              · exact hstep.2.1
              · exact hstep.2.2
            · exact Option.noConfusion hf

theorem map_lookup_getD (pieces : List PlacedTetromino)
    (hnd : (pieces.map (fun p => p.id)).Nodup) :
    (pieces.map (fun p => p.id)).map
      (fun k => (lookupAssoc (mapFromPairs (pieces.map (fun p => (p.id, p)))) k).getD
        examplePiece) = pieces := by
  rw [List.map_map]
  have hcg : ∀ p ∈ pieces,
      ((fun k => (lookupAssoc (mapFromPairs (pieces.map (fun p => (p.id, p)))) k).getD
        examplePiece) ∘ (fun p => p.id)) p = id p := by
    intro p hp
    show (lookupAssoc (mapFromPairs (pieces.map (fun p => (p.id, p)))) p.id).getD
        examplePiece = p
    rw [pieceMap_lookup_self pieces hnd p hp]
    rfl
  rw [List.map_congr_left hcg, List.map_id]

/-- C10: for every successful tiling with a non-empty piece list (and the
distinct piece identities the strictly increasing counter guarantees), if
`sequencePieces` reports success — through the greedy loop or the topological
fallback — then the output sequence's pieces are a permutation of the input
pieces, and the `order` fields are exactly `0, 1, ..., N-1` in positional
order. -/
theorem sequencePieces_perm_orders (result : TileResult)
    (hsucc : result.success = true) (hne : result.pieces ≠ [])
    (hnd : (result.pieces.map (fun p => p.id)).Nodup)
    (hs : (sequencePieces result).success = true) :
    (((sequencePieces result).sequence.map (fun e => e.piece)).Perm result.pieces) ∧
    (sequencePieces result).sequence.map (fun e => e.order)
      = List.range (sequencePieces result).sequence.length := by
  have hlen0 : (result.pieces.length == 0) = false := by
    have hx : ¬ (result.pieces.length = 0) :=
      fun h => hne (List.length_eq_zero.mp h)
    simpa using hx
  have hcond : ¬ (((decide (¬ (result.success = true)))
      || (result.pieces.length == 0)) = true) := by
    rw [hsucc, hlen0]
    simp
  simp only [sequencePieces] at hs ⊢
  rw [if_neg hcond] at hs ⊢
  have hperm0 : ((([] : List SequencedPiece).map (fun e => e.piece.id))
      ++ dedupFirst (result.pieces.map (fun p => p.id))).Perm
      (result.pieces.map (fun p => p.id)) := by
    rw [List.map_nil, List.nil_append, dedupFirst_nodup_id _ hnd]
  have hord0 : ([] : List SequencedPiece).map (fun e => e.order)
      = List.range ([] : List SequencedPiece).length := rfl
  have hlk0 : ∀ e ∈ ([] : List SequencedPiece),
      lookupAssoc (mapFromPairs (result.pieces.map (fun p => (p.id, p)))) e.piece.id
        = some e.piece :=
    fun e he => absurd he (List.not_mem_nil e)
  have hg := sequenceGreedy_perm result ((result.grid.length : Int))
    (((result.grid.headD []).length : Int)) ((result.grid.length : Int) - 1) hnd
    ((dedupFirst (result.pieces.map (fun p => p.id))).length + 1)
    (⟨[], dedupFirst (result.pieces.map (fun p => p.id)), []⟩ : GreedyState)
    hperm0 hord0 hlk0 _ rfl hs
  rcases hg with ⟨hP, hO, hL⟩
  constructor
  · have hmap1 : ((sequenceGreedy result ((result.grid.length : Int))
        (((result.grid.headD []).length : Int)) ((result.grid.length : Int) - 1)
        (mapFromPairs (result.pieces.map (fun p => (p.id, p))))
        ((dedupFirst (result.pieces.map (fun p => p.id))).length + 1)
        (⟨[], dedupFirst (result.pieces.map (fun p => p.id)), []⟩
          : GreedyState)).sequence.map (fun e => e.piece))
        = (((sequenceGreedy result ((result.grid.length : Int))
        (((result.grid.headD []).length : Int)) ((result.grid.length : Int) - 1)
        (mapFromPairs (result.pieces.map (fun p => (p.id, p))))
        ((dedupFirst (result.pieces.map (fun p => p.id))).length + 1)
        (⟨[], dedupFirst (result.pieces.map (fun p => p.id)), []⟩
          : GreedyState)).sequence.map (fun e => e.piece.id)).map
          (fun k => (lookupAssoc (mapFromPairs
            (result.pieces.map (fun p => (p.id, p)))) k).getD examplePiece)) := by
      rw [List.map_map]
      refine List.map_congr_left ?_
      intro e he
      show e.piece = (lookupAssoc (mapFromPairs
        (result.pieces.map (fun p => (p.id, p)))) e.piece.id).getD examplePiece
      rw [hL e he]
      rfl
    rw [hmap1]
    refine List.Perm.trans (List.Perm.map (fun k => (lookupAssoc (mapFromPairs
      (result.pieces.map (fun p => (p.id, p)))) k).getD examplePiece) hP) ?_
    rw [map_lookup_getD result.pieces hnd]
  · exact hO

/-- C10 witness: the permutation and order properties at the successfully
sequenced 2×2 example tiling. -/
theorem sequencePieces_perm_orders_witness :
    (((sequencePieces exampleTile).sequence.map (fun e => e.piece)).Perm
        exampleTile.pieces) ∧
    (sequencePieces exampleTile).sequence.map (fun e => e.order)
      = List.range (sequencePieces exampleTile).sequence.length :=
  sequencePieces_perm_orders exampleTile (by decide) (by decide) (by decide)
    (by decide)
